import Mathlib

/-!
Shallow embedding of the digital-atc core: the scenario runner
(src/sim/scenarioRunner.js) and the point-mass aircraft dynamics engine, with
theorems settling the frozen specification claims.

Numbers are modelled by exact rationals.  The transcendental functions the
engine calls (Math.sin/cos/asin/atan/sqrt) are passed in as an explicit
function table (Trig); theorems assume only the elementary facts about them
that the proofs need (for example |sin q| <= 1), and concrete instances are
supplied for witnesses and counterexample runs.
-/

namespace DigitalAtc

/-- Math.max on rationals (kernel-reducible). -/
def jsMax (a b : ℚ) : ℚ := if a ≤ b then b else a

/-- Math.min on rationals (kernel-reducible). -/
def jsMin (a b : ℚ) : ℚ := if a ≤ b then a else b

/-! Scenario runner data model (src/sim/scenarioRunner.js). -/

inductive EvType where
  | atc
  | addTfr
  | removeTfr
  | addTraffic
  | removeTraffic
  | note
  | unknown
deriving DecidableEq, Repr

inductive EvStatus where
  | pending
  | completed
deriving DecidableEq, Repr

/-- A scenario event as authored: `t` (seconds offset, possibly absent),
its type, and a source label `sid` (its position in the authored list). -/
structure SEvent where
  t : Option ℚ
  typ : EvType
  sid : ℕ
deriving DecidableEq, Repr

/-- `evt.t || 0` from the JS source: an absent (or zero) `t` reads as 0. -/
def tVal (e : SEvent) : ℚ := e.t.getD 0

/-- A runner event: a scenario event enriched with the sequential `index`
assigned at load time and the dispatch `status`. -/
structure REvent where
  t : Option ℚ
  typ : EvType
  sid : ℕ
  index : ℕ
  status : EvStatus
deriving DecidableEq, Repr

def rVal (e : REvent) : ℚ := e.t.getD 0

/-- Forget the load-time decoration of a runner event. -/
def stripR (e : REvent) : SEvent := ⟨e.t, e.typ, e.sid⟩

/-- A scenario document: optional `durationSec`, optional event list. -/
structure Scenario where
  durationSec : Option ℚ
  events : Option (List SEvent)
deriving DecidableEq, Repr

structure RunnerState where
  activeScenario : Option Scenario
  events : List REvent
  elapsed : ℚ
  duration : ℚ
  currentEventIndex : ℤ
  isRunning : Bool
  startTimestamp : ℚ
  pauseOffsetMs : ℚ
  nextEventPointer : ℕ
deriving DecidableEq, Repr

/-- The ref initial values in createScenarioRunner. -/
def initialRunnerState : RunnerState :=
  { activeScenario := none, events := [], elapsed := 0, duration := 180,
    currentEventIndex := 0, isRunning := false, startTimestamp := 0,
    pauseOffsetMs := 0, nextEventPointer := 0 }

/-- computeDurationSeconds from scenarioRunner.js. -/
def computeDurationSeconds (scenario : Option Scenario) : ℚ :=
  match scenario with
  | none => 180
  | some s =>
    match s.durationSec with
    | some d => d
    | none =>
      let maxEventTime := (s.events.getD []).foldl (fun acc evt => jsMax acc (tVal evt)) 0
      jsMax 90 (maxEventTime + 30)

/-- Stable insertion of an event into a list sorted ascending by `tVal`
(the element goes before the first existing element of larger-or-equal key,
matching the stable ascending sort of `Array.prototype.sort`). -/
def insertByT (e : SEvent) : List SEvent → List SEvent
  | [] => [e]
  | f :: rest => if tVal e ≤ tVal f then e :: f :: rest else f :: insertByT e rest

/-- The stable ascending-by-`t` sort performed at scenario load. -/
def sortByT : List SEvent → List SEvent
  | [] => []
  | e :: rest => insertByT e (sortByT rest)

/-- The event array produced by `resetEventStatuses` for a raw event list:
sorted by t (stable), sequential indices, all statuses pending. -/
def loadedEvents (l : List SEvent) : List REvent :=
  (sortByT l).enum.map (fun p => ⟨p.2.t, p.2.typ, p.2.sid, p.1, .pending⟩)

/-- resetEventStatuses from scenarioRunner.js. -/
def resetEventStatuses (st : RunnerState) : RunnerState :=
  let raw := match st.activeScenario with
    | none => []
    | some s => s.events.getD []
  let events := loadedEvents raw
  { st with events := events,
            currentEventIndex := if events.length ≠ 0 then 0 else -1,
            nextEventPointer := 0 }

/-- loadScenario from scenarioRunner.js (the onLoad callback has no effect on
runner state). -/
def loadScenario (st : RunnerState) (scenario : Scenario) : RunnerState :=
  let st1 := { st with activeScenario := some scenario,
                       duration := computeDurationSeconds (some scenario) }
  let st2 := resetEventStatuses st1
  { st2 with elapsed := 0, pauseOffsetMs := 0, startTimestamp := 0, isRunning := false }

/-- `events.findIndex((evt) => evt.status === 'pending')`, with `none` for
the JS result -1. -/
def findIndexPending : List REvent → Option ℕ
  | [] => none
  | e :: rest =>
    if e.status = .pending then some 0 else (findIndexPending rest).map (· + 1)

/-- updateCurrentEventIndex from scenarioRunner.js. -/
def updateCurrentEventIndex (st : RunnerState) : RunnerState :=
  { st with currentEventIndex := match findIndexPending st.events with
      | none => (st.events.length : ℤ)
      | some i => (i : ℤ) }

/-- `{...event, status: 'completed'}` from processEvents. -/
def markCompleted (e : REvent) : REvent := { e with status := EvStatus.completed }

/-- The dispatch loop of processEvents: walk the suffix starting at the
dispatch pointer while the next event is due, marking each completed.
Returns the rewritten suffix and the list of events handed to triggerEvent,
in dispatch order. -/
def dispatchLoop (elapsedSeconds : ℚ) : List REvent → List REvent × List REvent
  | [] => ([], [])
  | event :: rest =>
    if rVal event > elapsedSeconds then (event :: rest, [])
    else
      let r := dispatchLoop elapsedSeconds rest
      (markCompleted event :: r.1, event :: r.2)

/-- processEvents from scenarioRunner.js.  Besides the new state it returns
the list of events dispatched by this call. -/
def processEvents (st : RunnerState) (elapsedSeconds : ℚ) : RunnerState × List REvent :=
  if st.events.length = 0 then (st, [])
  else
    let pre := st.events.take st.nextEventPointer
    let r := dispatchLoop elapsedSeconds (st.events.drop st.nextEventPointer)
    let st1 := { st with events := pre ++ r.1,
                         nextEventPointer := st.nextEventPointer + r.2.length }
    (updateCurrentEventIndex st1, r.2)

/-- pause from scenarioRunner.js. -/
def runnerPause (st : RunnerState) (nowMs : ℚ) : RunnerState :=
  if st.isRunning = false then st
  else { st with isRunning := false, pauseOffsetMs := nowMs - st.startTimestamp }

/-- start from scenarioRunner.js. -/
def runnerStart (st : RunnerState) (nowMs : ℚ) : RunnerState :=
  if st.activeScenario.isNone then st
  else if st.isRunning then st
  else { st with startTimestamp := nowMs - st.pauseOffsetMs, isRunning := true }

/-- reset from scenarioRunner.js. -/
def runnerReset (st : RunnerState) (nowMs : ℚ) : RunnerState :=
  let st1 := runnerPause st nowMs
  resetEventStatuses { st1 with pauseOffsetMs := 0, elapsed := 0, startTimestamp := 0 }

/-- One frame tick of the runner at wall-clock `nowMs`. -/
def runnerTick (st : RunnerState) (nowMs : ℚ) : RunnerState × List REvent :=
  if st.isRunning = false then (st, [])
  else
    let elapsedSeconds := (nowMs - st.startTimestamp) / 1000
    let st1 := { st with elapsed := elapsedSeconds }
    let r := processEvents st1 elapsedSeconds
    if elapsedSeconds ≥ st1.duration then (runnerPause r.1 nowMs, r.2) else r

/-- Run processEvents for a whole sequence of elapsed values, concatenating
the dispatch logs. -/
def runTicks (st : RunnerState) : List ℚ → RunnerState × List REvent
  | [] => (st, [])
  | e :: es =>
    let r := processEvents st e
    let r2 := runTicks r.1 es
    (r2.1, r.2 ++ r2.2)

/-- Mark the first `n` events of a loaded array as completed (the shape of
the event array after the dispatch pointer has advanced to `n`). -/
def markFirst : ℕ → List REvent → List REvent
  | _, [] => []
  | 0, l => l
  | n + 1, e :: l => markCompleted e :: markFirst n l

/-- The runner-state shape maintained between loadScenario and the
processEvents calls of subsequent ticks: the event array is the loaded
array with exactly the first `nextEventPointer` entries marked completed. -/
def PtrShape (orig : List SEvent) (st : RunnerState) : Prop :=
  st.events = markFirst st.nextEventPointer (loadedEvents orig) ∧
  st.nextEventPointer ≤ (loadedEvents orig).length

/-- PtrShape together with the stored `currentEventIndex`: it tracks the
dispatch pointer for a nonempty event list and stays -1 for an empty one. -/
def IdxShape (orig : List SEvent) (st : RunnerState) : Prop :=
  PtrShape orig st ∧
  (orig ≠ [] → st.currentEventIndex = (st.nextEventPointer : ℤ)) ∧
  (orig = [] → st.currentEventIndex = -1)

/-- The t = [5, 10, 10, 20] example scenario of the spec (distinct source
labels so stable tie order is observable). -/
def exScenario : Scenario :=
  { durationSec := none,
    events := some [⟨some 5, .atc, 0⟩, ⟨some 10, .atc, 1⟩, ⟨some 10, .atc, 2⟩,
                    ⟨some 20, .atc, 3⟩] }

/-- A scenario whose event list is present but empty. -/
def emptyScenario : Scenario := { durationSec := none, events := some [] }

/-- Scenario {durationSec: undefined, events: [{t:60},{t:200}]} of the spec. -/
def durScenario : Scenario :=
  { durationSec := none, events := some [⟨some 60, .atc, 0⟩, ⟨some 200, .atc, 1⟩] }

/-! Aircraft dynamics engine (createSim).  Numbers are exact rationals; the
transcendental library functions are supplied through a `Trig` table. -/

/-- trunc toward zero, as used by the JS remainder operator. -/
def ratTrunc (q : ℚ) : ℤ := if q < 0 then ⌈q⌉ else ⌊q⌋

/-- The JS `%` operator on numbers: `a - n * trunc(a / n)`. -/
def jsMod (a n : ℚ) : ℚ := a - n * (ratTrunc (a / n) : ℚ)

/-- Math.sign restricted to the numeric cases. -/
def jsSign (q : ℚ) : ℚ := if q < 0 then -1 else if 0 < q then 1 else 0

/-- The table of transcendental functions the engine calls. -/
structure Trig where
  sin : ℚ → ℚ
  cos : ℚ → ℚ
  asin : ℚ → ℚ
  atan : ℚ → ℚ
  sqrt : ℚ → ℚ

/-- The exact value of the IEEE double Math.PI. -/
def PI_JS : ℚ := 884279719003555 / 281474976710656

def DEG_TO_RAD : ℚ := PI_JS / 180
def KT_TO_MPS : ℚ := 0.514444
def FT_TO_M : ℚ := 0.3048
def FPM_TO_MPS : ℚ := 1 / 196.85

def toRadians (deg : ℚ) : ℚ := deg * DEG_TO_RAD
def toDegrees (rad : ℚ) : ℚ := rad / DEG_TO_RAD

def normalizeHeading (heading : ℚ) : ℚ :=
  let h := jsMod heading 360
  if h < 0 then h + 360 else h

def normalizeHeadingDiff (diff : ℚ) : ℚ :=
  if diff > 180 then diff - 360 else if diff < -180 then diff + 360 else diff

/-- Simulation parameters of createSim. -/
def minSpeedMps : ℚ := 80 * KT_TO_MPS
def maxSpeedMps : ℚ := 250 * KT_TO_MPS
def speedAccelMps2 : ℚ := 2
def maxTurnRateDegps : ℚ := 3
def bankAngleSmoothingRate : ℚ := 15
def maxClimbRateMps : ℚ := 30.48
def maxDescentRateMps : ℚ := 25.4
def maxPitchAngleDeg : ℚ := 15
def pitchAngleSmoothingRate : ℚ := 3
def gAccel : ℚ := 9.81
def SPEED_TOLERANCE_MPS : ℚ := 0.5
def HEADING_TOLERANCE_DEG : ℚ := 1
def ALTITUDE_TOLERANCE_M : ℚ := 10
def maxTrailDistanceM : ℚ := 5000
def updateIntervalMs : ℚ := 50

/-- One breadcrumb-trail sample. -/
structure HistSample where
  x : ℚ
  y : ℚ
  z : ℚ
  cumulativeDistance : ℚ
  timestamp : ℚ
deriving DecidableEq, Repr

/-- The closure state of createSim: position/attitude, control inputs,
automation targets, timing, and the position-history buffer, together with
the construction parameters needed by reset and the ground-safety clamp. -/
structure SimState where
  x : ℚ
  y : ℚ
  z : ℚ
  headingDeg : ℚ
  speedMps : ℚ
  bankAngleDeg : ℚ
  pitchAngleDeg : ℚ
  speedInput : ℚ
  turnInput : ℚ
  pitchInput : ℚ
  targetSpeedKt : Option ℚ
  targetHeadingDeg : Option ℚ
  targetAltitudeFt : Option ℚ
  verticalSpeedLimitFpm : Option ℚ
  currentOriginAltitudeMeters : ℚ
  lastTimestamp : Option ℚ
  isRunning : Bool
  positionHistory : List HistSample
  lastUpdateTime : Option ℚ
  cumulativeDistance : ℚ
  initialHeadingDeg : ℚ
  initialAltitudeMeters : ℚ
  initialSpeedKt : ℚ
deriving DecidableEq, Repr

/-- createSim: the freshly constructed engine state. -/
def createSim (initialHeadingDeg initialAltitudeMeters originAltitudeMeters
    initialSpeedKt : ℚ) : SimState :=
  { x := 0, y := 0, z := initialAltitudeMeters,
    headingDeg := initialHeadingDeg,
    speedMps := initialSpeedKt * KT_TO_MPS,
    bankAngleDeg := 0, pitchAngleDeg := 0,
    speedInput := 0, turnInput := 0, pitchInput := 0,
    targetSpeedKt := none, targetHeadingDeg := none, targetAltitudeFt := none,
    verticalSpeedLimitFpm := none,
    currentOriginAltitudeMeters := originAltitudeMeters,
    lastTimestamp := none, isRunning := false,
    positionHistory := [], lastUpdateTime := none, cumulativeDistance := 0,
    initialHeadingDeg := initialHeadingDeg,
    initialAltitudeMeters := initialAltitudeMeters,
    initialSpeedKt := initialSpeedKt }

/-- The speed section of updatePosition (automation target, manual input,
integration, clamp).  Returns (speedInput, speedMps) after the tick. -/
def speedStep (targetSpeedKt : Option ℚ) (speedInput speedMps deltaTime : ℚ) :
    ℚ × ℚ :=
  let si_sm : ℚ × ℚ :=
    match targetSpeedKt with
    | none => (speedInput, speedMps)
    | some tk =>
      let targetSpeedMps := tk * KT_TO_MPS
      let speedDiff := targetSpeedMps - speedMps
      if |speedDiff| > SPEED_TOLERANCE_MPS then
        let maxSpeedChange := speedAccelMps2 * deltaTime
        (jsMax (-1) (jsMin 1 (speedDiff / maxSpeedChange)), speedMps)
      else (0, targetSpeedMps)
  let speedChange := si_sm.1 * speedAccelMps2 * deltaTime
  (si_sm.1, jsMax minSpeedMps (jsMin maxSpeedMps (si_sm.2 + speedChange)))

/-- Result of the heading/turn section before the heading integration. -/
structure HeadingOut where
  turnInput : ℚ
  headingDeg : ℚ
  turnRate : ℚ
deriving DecidableEq, Repr

/-- The heading/turn section of updatePosition: proportional control toward a
heading target with snap inside the 1 degree tolerance. -/
def headingStep (targetHeadingDeg : Option ℚ) (turnInput headingDeg : ℚ) :
    HeadingOut :=
  match targetHeadingDeg with
  | none => ⟨turnInput, headingDeg, turnInput * maxTurnRateDegps⟩
  | some th =>
    let headingDiff := normalizeHeadingDiff (th - headingDeg)
    if |headingDiff| > HEADING_TOLERANCE_DEG then
      let desiredTurnRate :=
        jsMax (-maxTurnRateDegps) (jsMin maxTurnRateDegps (headingDiff * 2))
      let ti := desiredTurnRate / maxTurnRateDegps
      ⟨ti, headingDeg, ti * maxTurnRateDegps⟩
    else ⟨0, th, 0⟩

/-- Rate-limited smoothing toward a target (used for bank and pitch). -/
def smoothStep (current target maxChange : ℚ) : ℚ :=
  let diff := target - current
  current + (if |diff| > maxChange then jsSign diff * maxChange else diff)

/-- The coordinated-turn bank-angle target. -/
def bankTargetStep (T : Trig) (turnRate speedMps : ℚ) : ℚ :=
  if |turnRate| > 0.1 ∧ speedMps > 10 then
    jsMax (-30) (jsMin 30
      (toDegrees (T.atan ((toRadians turnRate * speedMps) / gAccel))))
  else 0

/-- Result of the pitch-target section. -/
structure PitchOut where
  targetPitchAngleDeg : ℚ
  pitchInput : ℚ
  z : ℚ
  targetAltitudeFt : Option ℚ
deriving DecidableEq, Repr

/-- The altitude-automation / manual-pitch section of updatePosition,
including the in-tolerance snap that clears the altitude target. -/
def pitchTargetStep (T : Trig) (targetAltitudeFt verticalSpeedLimitFpm : Option ℚ)
    (currentOriginAltitudeMeters z pitchInput speedMps : ℚ) : PitchOut :=
  match targetAltitudeFt with
  | some taf =>
    let targetAltitudeMeters := taf * FT_TO_M - currentOriginAltitudeMeters
    let altitudeDiff := targetAltitudeMeters - z
    if |altitudeDiff| > ALTITUDE_TOLERANCE_M then
      let dvs0 := jsMax (-maxDescentRateMps)
        (jsMin maxClimbRateMps (altitudeDiff * 0.1))
      let dvs := match verticalSpeedLimitFpm with
        | none => dvs0
        | some lim =>
          let limitMps := lim * FPM_TO_MPS
          jsMax (-limitMps) (jsMin limitMps dvs0)
      if speedMps > 10 then
        let requiredPitchRad := T.asin (jsMax (-1) (jsMin 1 (dvs / speedMps)))
        let requiredPitchDeg := toDegrees requiredPitchRad
        let tp := jsMax (-maxPitchAngleDeg) (jsMin maxPitchAngleDeg requiredPitchDeg)
        ⟨tp, tp / maxPitchAngleDeg, z, some taf⟩
      else ⟨0, pitchInput, z, some taf⟩
    else ⟨0, 0, targetAltitudeMeters, none⟩
  | none =>
    if |pitchInput| > 0.1 then
      ⟨jsMax (-maxPitchAngleDeg) (jsMin maxPitchAngleDeg
        (pitchInput * maxPitchAngleDeg)), pitchInput, z, none⟩
    else ⟨0, pitchInput, z, none⟩

/-- The vertical-speed computation: `speed * sin(pitch)` clamped to the
climb/descent limits and any vertical-speed cap. -/
def verticalStep (verticalSpeedLimitFpm : Option ℚ) (speedMps sinPitch : ℚ) : ℚ :=
  let vs0 := speedMps * sinPitch
  let vs1 := if vs0 > 0 then jsMin vs0 maxClimbRateMps
    else jsMax vs0 (-maxDescentRateMps)
  match verticalSpeedLimitFpm with
  | none => vs1
  | some lim =>
    let limitMps := lim * FPM_TO_MPS
    jsMax (-limitMps) (jsMin limitMps vs1)

/-- The trail-trimming scan: the first index i (among all but the last entry)
whose distance from the newest sample is within the trail limit; `none` when
no examined entry qualifies (the JS loop then leaves cutoffIndex = 0). -/
def firstKeepIdx (newestDistance : ℚ) : List HistSample → Option ℕ
  | [] => none
  | [_] => none
  | p :: q :: rest =>
    if newestDistance - p.cumulativeDistance ≤ maxTrailDistanceM then some 0
    else (firstKeepIdx newestDistance (q :: rest)).map (· + 1)

/-- Remove points beyond maxTrailDistanceM, as in updatePosition. -/
def trimHistory (newestDistance : ℚ) (hist : List HistSample) : List HistSample :=
  if hist.length > 1 then hist.drop ((firstKeepIdx newestDistance hist).getD 0)
  else hist

/-- The history append-and-trim block of updatePosition.  Returns the new
buffer and the new cumulative distance. -/
def historyStep (T : Trig) (x y z cumulativeDistance : ℚ)
    (positionHistory : List HistSample) (timestamp : ℚ) :
    List HistSample × ℚ :=
  let cd1 := match positionHistory.getLast? with
    | none => cumulativeDistance
    | some lastPoint =>
      cumulativeDistance + T.sqrt ((x - lastPoint.x) ^ 2 + (y - lastPoint.y) ^ 2)
  let hist1 := positionHistory ++ [⟨x, y, z, cd1, timestamp⟩]
  (trimHistory cd1 hist1, cd1)

/-- The speed section applied to the tick state. -/
def tickSpeed (s : SimState) (dt : ℚ) : ℚ × ℚ :=
  speedStep s.targetSpeedKt s.speedInput s.speedMps dt

/-- The heading/turn section applied to the tick state. -/
def tickHeading (s : SimState) : HeadingOut :=
  headingStep s.targetHeadingDeg s.turnInput s.headingDeg

/-- bankAngleDeg after the rate-limited transition toward the
coordinated-turn target. -/
def tickBankAngle (T : Trig) (s : SimState) (dt : ℚ) : ℚ :=
  smoothStep s.bankAngleDeg (bankTargetStep T (tickHeading s).turnRate (tickSpeed s dt).2)
    (bankAngleSmoothingRate * dt)

/-- The pitch-target section applied to the tick state (the speed involved
is the already-updated one, as in the source ordering). -/
def tickPitchOut (T : Trig) (s : SimState) (dt : ℚ) : PitchOut :=
  pitchTargetStep T s.targetAltitudeFt s.verticalSpeedLimitFpm
    s.currentOriginAltitudeMeters s.z s.pitchInput (tickSpeed s dt).2

/-- pitchAngleDeg after the rate-limited transition toward the target. -/
def tickPitchAngle (T : Trig) (s : SimState) (dt : ℚ) : ℚ :=
  smoothStep s.pitchAngleDeg (tickPitchOut T s dt).targetPitchAngleDeg
    (pitchAngleSmoothingRate * dt)

/-- headingDeg after integrating the turn rate and normalizing. -/
def tickHeadingDeg (s : SimState) (dt : ℚ) : ℚ :=
  normalizeHeading ((tickHeading s).headingDeg + (tickHeading s).turnRate * dt)

/-- The clamped vertical speed of the tick. -/
def tickVertical (T : Trig) (s : SimState) (dt : ℚ) : ℚ :=
  verticalStep s.verticalSpeedLimitFpm (tickSpeed s dt).2
    (T.sin (toRadians (tickPitchAngle T s dt)))

/-- z after vertical integration and the ground-safety clamp. -/
def tickZ (T : Trig) (s : SimState) (dt : ℚ) : ℚ :=
  let z2 := (tickPitchOut T s dt).z + tickVertical T s dt * dt
  let minAltitudeMeters := s.initialAltitudeMeters - 1000
  if z2 < minAltitudeMeters then minAltitudeMeters else z2

/-- The horizontal distance `speed * cos(pitch) * dt` of the tick. -/
def tickDist (T : Trig) (s : SimState) (dt : ℚ) : ℚ :=
  (tickSpeed s dt).2 * T.cos (toRadians (tickPitchAngle T s dt)) * dt

/-- x after the eastward component. -/
def tickX (T : Trig) (s : SimState) (dt : ℚ) : ℚ :=
  s.x + T.sin (toRadians (tickHeadingDeg s dt)) * tickDist T s dt

/-- y after the (sign-flipped, screen-southward) north component. -/
def tickY (T : Trig) (s : SimState) (dt : ℚ) : ℚ :=
  s.y - T.cos (toRadians (tickHeadingDeg s dt)) * tickDist T s dt

/-- The body of updatePosition once the tick has been accepted
(0 < deltaTime ≤ 0.1): every state field updated, then the wall-clock-gated
history append/trim. -/
def validTick (T : Trig) (s : SimState) (timestamp deltaTime : ℚ) : SimState :=
  let core := { s with
    speedInput := (tickSpeed s deltaTime).1,
    speedMps := (tickSpeed s deltaTime).2,
    turnInput := (tickHeading s).turnInput,
    headingDeg := tickHeadingDeg s deltaTime,
    bankAngleDeg := tickBankAngle T s deltaTime,
    pitchInput := (tickPitchOut T s deltaTime).pitchInput,
    pitchAngleDeg := tickPitchAngle T s deltaTime,
    z := tickZ T s deltaTime,
    x := tickX T s deltaTime,
    y := tickY T s deltaTime,
    targetAltitudeFt := (tickPitchOut T s deltaTime).targetAltitudeFt,
    lastTimestamp := some timestamp }
  let shouldUpdateHistory := match s.lastUpdateTime with
    | none => true
    | some lu => decide (timestamp - lu ≥ updateIntervalMs)
  if shouldUpdateHistory then
    let hs := historyStep T (tickX T s deltaTime) (tickY T s deltaTime)
      (tickZ T s deltaTime) s.cumulativeDistance s.positionHistory timestamp
    { core with positionHistory := hs.1, cumulativeDistance := hs.2,
                lastUpdateTime := some timestamp }
  else core

/-- updatePosition: delta-time computation and validity guard, then the tick
body.  Invalid ticks (deltaTime ≤ 0 or > 0.1 s) only record the timestamp. -/
def updatePosition (T : Trig) (s : SimState) (timestamp : ℚ) : SimState :=
  if s.isRunning = false then s
  else
    let deltaTime := match s.lastTimestamp with
      | none => 0
      | some l => (timestamp - l) / 1000
    if deltaTime ≤ 0 ∨ deltaTime > 0.1 then { s with lastTimestamp := some timestamp }
    else validTick T s timestamp deltaTime

/-- start(): push an initial history sample when the buffer is empty. -/
def engineStart (s : SimState) (now : ℚ) : SimState :=
  if s.isRunning then s
  else
    { s with isRunning := true, lastTimestamp := none,
             positionHistory := if s.positionHistory.isEmpty then
                 [⟨s.x, s.y, s.z, 0, now⟩]
               else s.positionHistory }

/-- stop(). -/
def engineStop (s : SimState) : SimState :=
  { s with isRunning := false, lastTimestamp := none }

/-- reset(). -/
def engineReset (s : SimState) : SimState :=
  let s1 := engineStop s
  { s1 with x := 0, y := 0, z := s.initialAltitudeMeters,
            headingDeg := s.initialHeadingDeg,
            bankAngleDeg := 0, pitchAngleDeg := 0,
            speedMps := s.initialSpeedKt * KT_TO_MPS,
            speedInput := 0, turnInput := 0, pitchInput := 0,
            targetSpeedKt := none, targetHeadingDeg := none,
            targetAltitudeFt := none, verticalSpeedLimitFpm := none,
            positionHistory := [], lastUpdateTime := none,
            cumulativeDistance := 0 }

/-- setControls({speed, turn, pitch}): clamp each provided axis to [-1, 1]
and clear the matching automation target when the value is nonzero. -/
def setControls (s : SimState) (speed turn pitch : Option ℚ) : SimState :=
  let s1 := match speed with
    | none => s
    | some v =>
      { s with speedInput := jsMax (-1) (jsMin 1 v),
               targetSpeedKt := if v ≠ 0 then none else s.targetSpeedKt }
  let s2 := match turn with
    | none => s1
    | some v =>
      { s1 with turnInput := jsMax (-1) (jsMin 1 v),
                targetHeadingDeg := if v ≠ 0 then none else s1.targetHeadingDeg }
  match pitch with
  | none => s2
  | some v =>
    { s2 with pitchInput := jsMax (-1) (jsMin 1 v),
              targetAltitudeFt := if v ≠ 0 then none else s2.targetAltitudeFt }

def setSpeed (s : SimState) (targetSpeedKnots : ℚ) : SimState :=
  { s with targetSpeedKt := some (jsMax 40 (jsMin 400 targetSpeedKnots)) }

def setHeading (s : SimState) (targetHeadingDegrees : ℚ) : SimState :=
  { s with targetHeadingDeg := some (normalizeHeading targetHeadingDegrees) }

def setAltitude (s : SimState) (targetAltitudeFeet : ℚ) : SimState :=
  { s with targetAltitudeFt := some (jsMax (-1000) (jsMin 60000 targetAltitudeFeet)) }

def setVerticalSpeedLimit (s : SimState) (limitFeetPerMinute : Option ℚ) : SimState :=
  match limitFeetPerMinute with
  | none => { s with verticalSpeedLimitFpm := none }
  | some l =>
    let absLimit := if l < 0 then -l else l
    let clamped := if absLimit > 4000 then (4000 : ℚ)
      else if absLimit < 0 then 0 else absLimit
    { s with verticalSpeedLimitFpm := some clamped }

def clearSpeed (s : SimState) : SimState := { s with targetSpeedKt := none }
def clearHeading (s : SimState) : SimState := { s with targetHeadingDeg := none }
def clearAltitude (s : SimState) : SimState := { s with targetAltitudeFt := none }
def clearVerticalSpeedLimit (s : SimState) : SimState :=
  { s with verticalSpeedLimitFpm := none }

def updateOriginAltitude (s : SimState) (newOriginAltitudeMeters : ℚ) : SimState :=
  { s with currentOriginAltitudeMeters := newOriginAltitudeMeters }

/-! Concrete trig tables for witnesses and counterexample runs.  Each one
agrees with the real functions at the points the run evaluates them. -/

/-- The everywhere-zero table (sound: |sin| ≤ 1, |cos| ≤ 1, sqrt ≥ 0). -/
def trigZero : Trig :=
  ⟨fun _ => 0, fun _ => 0, fun _ => 0, fun _ => 0, fun _ => 0⟩

/-- sin = 0, cos = 1: exact for runs that only evaluate trig at 0 radians. -/
def trigUnitCos : Trig :=
  ⟨fun _ => 0, fun _ => 1, fun _ => 0, fun _ => 0, fun _ => 0⟩

/-- sin 0 = 0 and sin q = 1 elsewhere, cos = 1: exact at 0 and at pi/2. -/
def trigStepSin : Trig :=
  ⟨fun q => if q = 0 then 0 else 1, fun _ => 1, fun _ => 0, fun _ => 0, fun _ => 0⟩

/-- sin 0 = 0 and sin q = 1/6 elsewhere (the run evaluates sin only at
9.7 degrees, where the real sine is 0.1685...), cos = 1. -/
def trigSixth : Trig :=
  ⟨fun q => if q = 0 then 0 else 1 / 6, fun _ => 1, fun _ => 0, fun _ => 0, fun _ => 0⟩

/-- A running engine in level flight: fresh createSim state at heading 0,
altitude 1000 m, 140 kt, with a previous frame at t = 1000 ms. -/
def witState : SimState :=
  { (createSim 0 1000 0 140) with isRunning := true, lastTimestamp := some 1000 }

/-- witState turned to heading 90. -/
def witState90 : SimState :=
  { witState with headingDeg := 90 }

/-- A running engine within the 10 m altitude tolerance of its 10000 ft
target (3048 m) while still pitched up 10 degrees at 60 m/s. -/
def cexAltState : SimState :=
  { (createSim 0 3000 0 140) with
    isRunning := true, lastTimestamp := some 1000,
    z := 3040, pitchAngleDeg := 10, speedMps := 60,
    targetAltitudeFt := some 10000, lastUpdateTime := some 1060 }

/-- A running engine in level flight within tolerance of all three targets:
altitude 10000 ft (z = 3040 vs 3048 m), heading 5 (at heading 5), speed
100 kt (at exactly 100 kt). -/
def witAltState : SimState :=
  { (createSim 0 3000 0 140) with
    isRunning := true, lastTimestamp := some 1000,
    z := 3040, speedMps := 51.4444,
    targetAltitudeFt := some 10000,
    headingDeg := 5, targetHeadingDeg := some 5,
    targetSpeedKt := some 100,
    lastUpdateTime := some 1060 }

/-! IntentApplier (applyIntentToSim in App.vue). -/

inductive VerticalMode where
  | level
  | other
deriving DecidableEq, Repr

inductive SpecialAction where
  | resumeOwnNavigation
  | other
deriving DecidableEq, Repr

/-- An intent record produced by the instruction-parsing agent.  A numeric
field is `some`; `none` models an absent or non-numeric field. -/
structure Intent where
  targetHeadingDeg : Option ℚ
  targetTrackDeg : Option ℚ
  targetAltitudeFt : Option ℚ
  targetSpeedKt : Option ℚ
  verticalMode : Option VerticalMode
  specialAction : Option SpecialAction
deriving DecidableEq, Repr

/-- applyIntentToSim from App.vue: each axis sets its target when the numeric
field is present; otherwise the resumeOwnNavigation special action clears it
(for altitude, only when verticalMode is not 'level', which instead re-targets
the current altitude when known). -/
def applyIntentToSim (s : SimState) (intent : Intent)
    (currentAltitudeFt : Option ℚ) : SimState :=
  let s1 := match intent.targetHeadingDeg with
    | some h => setHeading s h
    | none =>
      if intent.specialAction = some .resumeOwnNavigation then clearHeading s else s
  let s2 := match intent.targetTrackDeg with
    | some tr => setHeading s1 tr
    | none => s1
  let s3 := match intent.targetAltitudeFt with
    | some a => setAltitude s2 a
    | none =>
      if intent.verticalMode = some .level then
        match currentAltitudeFt with
        | some alt => setAltitude s2 alt
        | none => s2
      else if intent.specialAction = some .resumeOwnNavigation then clearAltitude s2
      else s2
  match intent.targetSpeedKt with
  | some sp => setSpeed s3 sp
  | none =>
    if intent.specialAction = some .resumeOwnNavigation then clearSpeed s3 else s3

/-! Reachable engine states and the trail invariant (claim C5). -/

/-- The total arc length spanned by the retained history samples: the newest
sample's cumulative distance minus the oldest's (0 when empty). -/
def histSpan (s : SimState) : ℚ :=
  ((s.positionHistory.getLast?.map HistSample.cumulativeDistance).getD 0) -
    ((s.positionHistory.head?.map HistSample.cumulativeDistance).getD 0)

/-- The elementary facts about the real library functions that the trail
invariant depends on. -/
def TrigSound (T : Trig) : Prop :=
  (∀ q, |T.sin q| ≤ 1) ∧ (∀ q, |T.cos q| ≤ 1) ∧
  (∀ q, 0 ≤ T.sqrt q) ∧ (∀ a b, T.sqrt (a ^ 2 + b ^ 2) ≤ |a| + |b|)

/-- Inductive-invariant bound on how far the aircraft can have moved from the
newest history sample: within 2·maxSpeed times the wall-clock window since
the last append (capped; the cap covers clock gaps across stop/start). -/
def posBound (tclock : ℚ) (s : SimState) : ℚ :=
  match s.lastUpdateTime with
  | none => 0
  | some lu =>
    match s.lastTimestamp with
    | none => 2 * maxSpeedMps * min ((tclock - lu) / 1000) (3 / 20)
    | some L => 2 * maxSpeedMps * min ((L - lu) / 1000) (3 / 20)

/-- The engine-state invariant maintained by every operation, at wall clock
`tclock`: timestamps are in the past and ordered, the cumulative-distance
register mirrors the newest sample, the aircraft stays within posBound of
the newest sample, the running engine has a sample, and the retained span
never exceeds the maximum trailing distance. -/
def EngineInv (tclock : ℚ) (s : SimState) : Prop :=
  (∀ lu ∈ s.lastUpdateTime, lu ≤ tclock) ∧
  (∀ L ∈ s.lastTimestamp, L ≤ tclock) ∧
  (∀ lu ∈ s.lastUpdateTime, ∀ L ∈ s.lastTimestamp, lu ≤ L) ∧
  (s.positionHistory = [] → s.cumulativeDistance = 0 ∧ s.lastUpdateTime = none) ∧
  (∀ last ∈ s.positionHistory.getLast?,
    s.cumulativeDistance = last.cumulativeDistance ∧
    |s.x - last.x| + |s.y - last.y| ≤ posBound tclock s) ∧
  (s.isRunning = true → s.positionHistory ≠ []) ∧
  histSpan s ≤ maxTrailDistanceM

/-- States reachable through the public engine API with nondecreasing
wall-clock timestamps (requestAnimationFrame and performance.now are
monotone). -/
inductive Reach (T : Trig) : ℚ → SimState → Prop
  | init (h a o k t0 : ℚ) : Reach T t0 (createSim h a o k)
  | tick {t : ℚ} {s : SimState} (ts : ℚ) :
      Reach T t s → t ≤ ts → Reach T ts (updatePosition T s ts)
  | start {t : ℚ} {s : SimState} (now : ℚ) :
      Reach T t s → t ≤ now → Reach T now (engineStart s now)
  | stop {t : ℚ} {s : SimState} : Reach T t s → Reach T t (engineStop s)
  | reset {t : ℚ} {s : SimState} : Reach T t s → Reach T t (engineReset s)
  | controls {t : ℚ} {s : SimState} (a b c : Option ℚ) :
      Reach T t s → Reach T t (setControls s a b c)
  | speed {t : ℚ} {s : SimState} (k : ℚ) : Reach T t s → Reach T t (setSpeed s k)
  | heading {t : ℚ} {s : SimState} (h : ℚ) : Reach T t s → Reach T t (setHeading s h)
  | altitude {t : ℚ} {s : SimState} (a : ℚ) : Reach T t s → Reach T t (setAltitude s a)
  | vsl {t : ℚ} {s : SimState} (v : Option ℚ) :
      Reach T t s → Reach T t (setVerticalSpeedLimit s v)
  | clrSpeed {t : ℚ} {s : SimState} : Reach T t s → Reach T t (clearSpeed s)
  | clrHeading {t : ℚ} {s : SimState} : Reach T t s → Reach T t (clearHeading s)
  | clrAltitude {t : ℚ} {s : SimState} : Reach T t s → Reach T t (clearAltitude s)
  | clrVsl {t : ℚ} {s : SimState} :
      Reach T t s → Reach T t (clearVerticalSpeedLimit s)
  | origin {t : ℚ} {s : SimState} (m : ℚ) :
      Reach T t s → Reach T t (updateOriginAltitude s m)
  | wait {t : ℚ} {s : SimState} (tnext : ℚ) :
      Reach T t s → t ≤ tnext → Reach T tnext s

/-- An intent carrying both a numeric heading and the resume-own-navigation
special action. -/
def cexIntent : Intent :=
  ⟨some 90, none, none, none, none, some .resumeOwnNavigation⟩

/-- A bare resume-own-navigation intent. -/
def resumeIntent : Intent :=
  ⟨none, none, none, none, none, some .resumeOwnNavigation⟩

/-- witState with all three targets and a vertical-speed limit set. -/
def witTargets : SimState :=
  { witState with
    targetHeadingDeg := some 100, targetAltitudeFt := some 5000,
    targetSpeedKt := some 200, verticalSpeedLimitFpm := some 1000 }

/-! Lemmas about jsMax / jsMin. -/

theorem jsMax_eq (a b : ℚ) : jsMax a b = max a b := by
  simp [jsMax, max_def]

theorem jsMin_eq (a b : ℚ) : jsMin a b = min a b := by
  simp [jsMin, min_def]

theorem le_jsMax_left (a b : ℚ) : a ≤ jsMax a b := by
  rw [jsMax_eq]; exact le_max_left a b

theorem le_jsMax_right (a b : ℚ) : b ≤ jsMax a b := by
  rw [jsMax_eq]; exact le_max_right a b

/-! The load-time sort: sortedness and stability. -/

theorem mem_insertByT {x e : SEvent} {l : List SEvent} :
    x ∈ insertByT e l ↔ x = e ∨ x ∈ l := by
  induction l with
  | nil => simp [insertByT]
  | cons f rest ih =>
    by_cases h : tVal e ≤ tVal f
    · simp [insertByT, if_pos h]
    · simp only [insertByT, if_neg h, List.mem_cons, ih]
      tauto

theorem pairwise_insertByT {e : SEvent} {l : List SEvent}
    (h : l.Pairwise (fun a b => tVal a ≤ tVal b)) :
    (insertByT e l).Pairwise (fun a b => tVal a ≤ tVal b) := by
  induction l with
  | nil => simp [insertByT]
  | cons f rest ih =>
    rcases List.pairwise_cons.mp h with ⟨hf, hrest⟩
    by_cases hef : tVal e ≤ tVal f
    · rw [insertByT, if_pos hef]
      refine List.pairwise_cons.mpr ⟨?_, h⟩
      intro x hx
      rcases List.mem_cons.mp hx with rfl | hx
      · exact hef
      · exact le_trans hef (hf x hx)
    · rw [insertByT, if_neg hef]
      refine List.pairwise_cons.mpr ⟨?_, ih hrest⟩
      intro x hx
      rcases mem_insertByT.mp hx with rfl | hx
      · exact (lt_of_not_le hef).le
      · exact hf x hx

theorem sortByT_pairwise (l : List SEvent) :
    (sortByT l).Pairwise (fun a b => tVal a ≤ tVal b) := by
  induction l with
  | nil => simp [sortByT]
  | cons e rest ih => exact pairwise_insertByT ih

theorem filter_insertByT (c : ℚ) (e : SEvent) (l : List SEvent) :
    (insertByT e l).filter (fun a => decide (tVal a = c)) =
      if tVal e = c then e :: l.filter (fun a => decide (tVal a = c))
      else l.filter (fun a => decide (tVal a = c)) := by
  induction l with
  | nil => by_cases h : tVal e = c <;> simp [insertByT, h]
  | cons f rest ih =>
    by_cases hef : tVal e ≤ tVal f
    · rw [insertByT, if_pos hef]
      by_cases h : tVal e = c <;> by_cases hfc : tVal f = c <;>
        simp [List.filter_cons, h, hfc]
    · have hf : tVal f < tVal e := lt_of_not_le hef
      rw [insertByT, if_neg hef]
      by_cases h : tVal e = c
      · have hfc : ¬(tVal f = c) := by rw [← h]; exact ne_of_lt hf
        simp [List.filter_cons, hfc, ih, h]
      · by_cases hfc : tVal f = c <;> simp [List.filter_cons, hfc, ih, h]

theorem sortByT_filter (c : ℚ) (l : List SEvent) :
    (sortByT l).filter (fun a => decide (tVal a = c)) =
      l.filter (fun a => decide (tVal a = c)) := by
  induction l with
  | nil => rfl
  | cons e rest ih =>
    rw [sortByT, filter_insertByT, ih]
    by_cases h : tVal e = c <;> simp [List.filter_cons, h]

theorem insertByT_length (e : SEvent) (l : List SEvent) :
    (insertByT e l).length = l.length + 1 := by
  induction l with
  | nil => rfl
  | cons f rest ih =>
    by_cases h : tVal e ≤ tVal f <;> simp [insertByT, h, ih]

theorem sortByT_length (l : List SEvent) : (sortByT l).length = l.length := by
  induction l with
  | nil => rfl
  | cons e rest ih => simp [sortByT, insertByT_length, ih]

/-! Shape of the loaded event array. -/

theorem loadedEvents_map_stripR (l : List SEvent) :
    (loadedEvents l).map stripR = sortByT l := by
  rw [loadedEvents, List.map_map]
  have : (stripR ∘ fun p : ℕ × SEvent => REvent.mk p.2.t p.2.typ p.2.sid p.1 .pending)
      = Prod.snd := by
    funext p
    rfl
  rw [this, List.enum_map_snd]

theorem loadedEvents_map_index (l : List SEvent) :
    (loadedEvents l).map REvent.index = List.range (sortByT l).length := by
  rw [loadedEvents, List.map_map]
  have : (REvent.index ∘ fun p : ℕ × SEvent => REvent.mk p.2.t p.2.typ p.2.sid p.1 .pending)
      = Prod.fst := by
    funext p
    rfl
  rw [this, List.enum_map_fst]

theorem loadedEvents_map_rVal (l : List SEvent) :
    (loadedEvents l).map rVal = (sortByT l).map tVal := by
  rw [loadedEvents, List.map_map]
  conv_rhs => rw [← List.enum_map_snd (sortByT l), List.map_map]
  rfl

theorem loadedEvents_length (l : List SEvent) :
    (loadedEvents l).length = l.length := by
  simp [loadedEvents, sortByT_length]

theorem loadedEvents_status {l : List SEvent} :
    ∀ e ∈ loadedEvents l, e.status = .pending := by
  intro e he
  simp only [loadedEvents, List.mem_map] at he
  obtain ⟨p, _, rfl⟩ := he
  rfl

theorem loadedEvents_pairwise (l : List SEvent) :
    (loadedEvents l).Pairwise (fun a b => rVal a ≤ rVal b) := by
  have h1 : ((loadedEvents l).map rVal).Pairwise (· ≤ ·) := by
    rw [loadedEvents_map_rVal]
    exact (List.pairwise_map).mpr (sortByT_pairwise l)
  exact (List.pairwise_map).mp h1

/-! markFirst and the dispatch loop. -/

theorem markFirst_zero (l : List REvent) : markFirst 0 l = l := by
  cases l <;> rfl

theorem markFirst_length (n : ℕ) (l : List REvent) :
    (markFirst n l).length = l.length := by
  induction l generalizing n with
  | nil => cases n <;> rfl
  | cons e l ih =>
    cases n with
    | zero => rfl
    | succ n => simp [markFirst, ih]

theorem markFirst_eq_append (n : ℕ) (l : List REvent) :
    markFirst n l = (l.take n).map markCompleted ++ l.drop n := by
  induction l generalizing n with
  | nil => cases n <;> rfl
  | cons e l ih =>
    cases n with
    | zero => simp [markFirst_zero]
    | succ n => simp [markFirst, ih]

theorem dispatchLoop_spec (q : ℚ) (l : List REvent) :
    ∃ k, k ≤ l.length ∧
      (dispatchLoop q l).2 = l.take k ∧
      (dispatchLoop q l).1 = markFirst k l := by
  induction l with
  | nil => exact ⟨0, by simp [dispatchLoop, markFirst]⟩
  | cons e rest ih =>
    by_cases h : rVal e > q
    · exact ⟨0, by simp, by simp [dispatchLoop, h], by simp [dispatchLoop, h, markFirst_zero]⟩
    · obtain ⟨k, hk, h2, h1⟩ := ih
      refine ⟨k + 1, by exact Nat.succ_le_succ hk, ?_, ?_⟩
      · simp [dispatchLoop, h, h2]
      · simp [dispatchLoop, h, h1, markFirst]

/-! take/drop bookkeeping. -/

theorem take_drop_eq {α : Type} (l : List α) (p k : ℕ) :
    (l.take (p + k)).drop p = (l.drop p).take k := by
  induction l generalizing p k with
  | nil => simp
  | cons a l ih =>
    cases p with
    | zero => simp
    | succ p =>
      have : p + 1 + k = (p + k) + 1 := by omega
      rw [this, List.take_succ_cons, List.drop_succ_cons, List.drop_succ_cons, ih]

theorem drop_take_self {α : Type} (l : List α) (p : ℕ) :
    (l.take p).drop p = [] := by
  have h := take_drop_eq l p 0
  rw [Nat.add_zero] at h
  rw [h, List.take_zero]

theorem take_drop_concat {α : Type} (l : List α) {p₀ p₁ p₂ : ℕ}
    (h01 : p₀ ≤ p₁) (h12 : p₁ ≤ p₂) :
    (l.take p₁).drop p₀ ++ (l.take p₂).drop p₁ = (l.take p₂).drop p₀ := by
  have e1 : (l.take p₁).drop p₀ = (l.drop p₀).take (p₁ - p₀) := by
    have := take_drop_eq l p₀ (p₁ - p₀)
    rwa [Nat.add_sub_cancel' h01] at this
  have e2 : (l.take p₂).drop p₁ = (l.drop p₁).take (p₂ - p₁) := by
    have := take_drop_eq l p₁ (p₂ - p₁)
    rwa [Nat.add_sub_cancel' h12] at this
  have e3 : (l.take p₂).drop p₀ = (l.drop p₀).take (p₂ - p₀) := by
    have := take_drop_eq l p₀ (p₂ - p₀)
    rwa [Nat.add_sub_cancel' (le_trans h01 h12)] at this
  rw [e1, e2, e3]
  have e4 : p₂ - p₀ = (p₁ - p₀) + (p₂ - p₁) := by omega
  rw [e4, List.take_add, List.drop_drop]
  have e5 : p₀ + (p₁ - p₀) = p₁ := by omega
  rw [e5]

/-! processEvents specification. -/

theorem ptrShape_take {orig : List SEvent} {st : RunnerState} (h : PtrShape orig st) :
    st.events.take st.nextEventPointer =
      ((loadedEvents orig).take st.nextEventPointer).map markCompleted := by
  obtain ⟨hev, hle⟩ := h
  rw [hev, markFirst_eq_append]
  exact List.take_left' (by simp [List.length_take, min_eq_left hle])

theorem ptrShape_drop {orig : List SEvent} {st : RunnerState} (h : PtrShape orig st) :
    st.events.drop st.nextEventPointer =
      (loadedEvents orig).drop st.nextEventPointer := by
  obtain ⟨hev, hle⟩ := h
  rw [hev, markFirst_eq_append]
  exact List.drop_left' (by simp [List.length_take, min_eq_left hle])

theorem processEvents_spec (orig : List SEvent) (st : RunnerState) (q : ℚ)
    (h : PtrShape orig st) :
    PtrShape orig (processEvents st q).1 ∧
    st.nextEventPointer ≤ (processEvents st q).1.nextEventPointer ∧
    (processEvents st q).2 =
      ((loadedEvents orig).take (processEvents st q).1.nextEventPointer).drop
        st.nextEventPointer := by
  obtain ⟨hev, hle⟩ := h
  by_cases hemp : st.events.length = 0
  · refine ⟨?_, ?_, ?_⟩ <;> simp only [processEvents, if_pos hemp]
    · exact ⟨hev, hle⟩
    · exact le_refl _
    · exact (drop_take_self _ _).symm
  · have hlenev : st.events.length = (loadedEvents orig).length := by
      rw [hev, markFirst_length]
    have htake := ptrShape_take ⟨hev, hle⟩
    have hdrop := ptrShape_drop ⟨hev, hle⟩
    obtain ⟨k, hk, hlog, hmark⟩ := dispatchLoop_spec q (st.events.drop st.nextEventPointer)
    rw [hdrop] at hk hlog hmark
    have hloglen : (dispatchLoop q (st.events.drop st.nextEventPointer)).2.length = k := by
      rw [hdrop, hlog]
      rw [List.length_take]
      exact min_eq_left hk
    have hkle : st.nextEventPointer + k ≤ (loadedEvents orig).length := by
      have := hk
      rw [List.length_drop] at this
      omega
    have hevents' : st.events.take st.nextEventPointer ++
        (dispatchLoop q (st.events.drop st.nextEventPointer)).1 =
        markFirst (st.nextEventPointer + k) (loadedEvents orig) := by
      rw [htake, hdrop, hmark, markFirst_eq_append, markFirst_eq_append,
        ← List.append_assoc, ← List.map_append, ← List.take_add, List.drop_drop]
    refine ⟨⟨?_, ?_⟩, ?_, ?_⟩ <;>
      simp only [processEvents, if_neg hemp, updateCurrentEventIndex, hloglen]
    · exact hevents'
    · exact hkle
    · exact Nat.le_add_right _ _
    · rw [hdrop, hlog, take_drop_eq]

theorem runTicks_spec (orig : List SEvent) (st : RunnerState) (es : List ℚ)
    (h : PtrShape orig st) :
    PtrShape orig (runTicks st es).1 ∧
    st.nextEventPointer ≤ (runTicks st es).1.nextEventPointer ∧
    (runTicks st es).2 =
      ((loadedEvents orig).take (runTicks st es).1.nextEventPointer).drop
        st.nextEventPointer := by
  induction es generalizing st with
  | nil =>
    refine ⟨h, le_refl _, ?_⟩
    simp only [runTicks]
    exact (drop_take_self _ _).symm
  | cons q es ih =>
    obtain ⟨h1, hle1, hlog1⟩ := processEvents_spec orig st q h
    obtain ⟨h2, hle2, hlog2⟩ := ih _ h1
    refine ⟨h2, le_trans hle1 hle2, ?_⟩
    simp only [runTicks]
    rw [hlog1, hlog2]
    exact take_drop_concat _ hle1 hle2

theorem loadScenario_ptrShape (st : RunnerState) (scn : Scenario) :
    PtrShape (scn.events.getD []) (loadScenario st scn) := by
  constructor
  · show (loadScenario st scn).events =
      markFirst (loadScenario st scn).nextEventPointer (loadedEvents (scn.events.getD []))
    simp [loadScenario, resetEventStatuses, markFirst_zero]
  · show (loadScenario st scn).nextEventPointer ≤ (loadedEvents (scn.events.getD [])).length
    simp [loadScenario, resetEventStatuses]

theorem loadScenario_pointer (st : RunnerState) (scn : Scenario) :
    (loadScenario st scn).nextEventPointer = 0 := by
  simp [loadScenario, resetEventStatuses]

theorem loadScenario_duration (st : RunnerState) (scn : Scenario) :
    (loadScenario st scn).duration = computeDurationSeconds (some scn) := by
  simp [loadScenario, resetEventStatuses]

theorem loadScenario_index (st : RunnerState) (scn : Scenario) :
    (loadScenario st scn).currentEventIndex =
      if (scn.events.getD []).length ≠ 0 then 0 else -1 := by
  simp only [loadScenario, resetEventStatuses]
  simp [loadedEvents_length]

/-- Claim C1: for every loaded scenario, the ScenarioTimeline dispatches each
event at most once per load (the dispatched `index` values form an initial
range, even across several processEvents calls), in ascending-t order, with
ties kept in their original (stable) order (for every t value, the dispatch
log restricted to that value is a sublist of the authored event list
restricted to that value); concretely, for events at t = [5, 10, 10, 20],
advancing elapsed to 12 dispatches the events at 5, 10, 10 exactly once each
in that order, leaves the current event index equal to 3, and a further call
at elapsed 12 dispatches nothing further. -/
theorem claim_C1 :
    (∀ (scn : Scenario) (es : List ℚ),
      (∃ p, (runTicks (loadScenario initialRunnerState scn) es).2.map REvent.index
          = List.range p) ∧
      ((runTicks (loadScenario initialRunnerState scn) es).2.map rVal).Chain'
        (fun a b => a ≤ b) ∧
      (∀ c : ℚ,
        (((runTicks (loadScenario initialRunnerState scn) es).2.filter
            (fun e => decide (rVal e = c))).map stripR).Sublist
          ((scn.events.getD []).filter (fun a => decide (tVal a = c))))) ∧
    ((runTicks (loadScenario initialRunnerState exScenario) [12]).2.map REvent.sid
        = [0, 1, 2] ∧
     (runTicks (loadScenario initialRunnerState exScenario) [12]).2.map rVal
        = [5, 10, 10] ∧
     (runTicks (loadScenario initialRunnerState exScenario) [12]).1.currentEventIndex
        = 3 ∧
     (runTicks (loadScenario initialRunnerState exScenario) [12, 12]).2.map REvent.sid
        = [0, 1, 2]) := by
  constructor
  · intro scn es
    obtain ⟨⟨hev, hle⟩, hmono, hlog⟩ :=
      runTicks_spec (scn.events.getD []) _ es (loadScenario_ptrShape initialRunnerState scn)
    rw [loadScenario_pointer, List.drop_zero] at hlog
    refine ⟨⟨(runTicks (loadScenario initialRunnerState scn) es).1.nextEventPointer, ?_⟩,
      ?_, ?_⟩
    · rw [hlog, List.map_take, loadedEvents_map_index, List.take_range]
      have hb : (runTicks (loadScenario initialRunnerState scn) es).1.nextEventPointer ≤
          (sortByT (scn.events.getD [])).length := by
        rw [sortByT_length, ← loadedEvents_length]
        exact hle
      rw [min_eq_left hb]
    · rw [hlog]
      have hp : ((loadedEvents (scn.events.getD [])).take
          (runTicks (loadScenario initialRunnerState scn) es).1.nextEventPointer).Pairwise
          (fun a b => rVal a ≤ rVal b) :=
        List.Pairwise.sublist (List.take_sublist _ _) (loadedEvents_pairwise _)
      exact ((List.pairwise_map).mpr hp).chain'
    · intro c
      rw [hlog]
      have hsub1 := (List.take_sublist
        (runTicks (loadScenario initialRunnerState scn) es).1.nextEventPointer
        (loadedEvents (scn.events.getD []))).filter (fun e => decide (rVal e = c))
      have hcomp : ((loadedEvents (scn.events.getD [])).map stripR).filter
          (fun a => decide (tVal a = c)) =
          ((loadedEvents (scn.events.getD [])).filter
            (fun e => decide (rVal e = c))).map stripR := by
        rw [List.filter_map]
        rfl
      have heq : ((loadedEvents (scn.events.getD [])).filter
          (fun e => decide (rVal e = c))).map stripR =
          (scn.events.getD []).filter (fun a => decide (tVal a = c)) := by
        rw [← hcomp, loadedEvents_map_stripR, sortByT_filter]
      exact heq ▸ (hsub1.map stripR)
  · exact ⟨by decide, by decide, by decide, by decide⟩

/-! The stored currentEventIndex. -/

theorem findIndexPending_markFirst (l : List REvent)
    (hl : ∀ e ∈ l, e.status = .pending) (n : ℕ) (hn : n ≤ l.length) :
    findIndexPending (markFirst n l) = if n < l.length then some n else none := by
  induction l generalizing n with
  | nil =>
    have h0 : n = 0 := Nat.le_zero.mp hn
    subst h0
    rfl
  | cons e rest ih =>
    cases n with
    | zero =>
      rw [markFirst_zero, findIndexPending]
      have he : e.status = .pending := hl e (List.mem_cons_self e rest)
      simp [he]
    | succ n =>
      show findIndexPending (markCompleted e :: markFirst n rest) = _
      rw [findIndexPending]
      rw [if_neg (by simp [markCompleted])]
      rw [ih (fun x hx => hl x (List.mem_cons_of_mem e hx)) n (Nat.le_of_succ_le_succ hn)]
      by_cases h : n < rest.length
      · rw [if_pos h, if_pos (by simpa [Nat.succ_lt_succ_iff] using h)]
        rfl
      · rw [if_neg h, if_neg (by simpa [Nat.succ_lt_succ_iff] using h)]
        rfl

theorem index_of_shape (orig : List SEvent) (st1 : RunnerState) (h : PtrShape orig st1) :
    (match findIndexPending st1.events with
      | none => (st1.events.length : ℤ)
      | some i => (i : ℤ)) = (st1.nextEventPointer : ℤ) := by
  obtain ⟨hev, hle⟩ := h
  rw [hev, findIndexPending_markFirst _ loadedEvents_status _ hle]
  by_cases hp : st1.nextEventPointer < (loadedEvents orig).length
  · rw [if_pos hp]
  · rw [if_neg hp]
    have he : st1.nextEventPointer = (loadedEvents orig).length :=
      le_antisymm hle (not_lt.mp hp)
    rw [markFirst_length, he]

theorem processEvents_index (orig : List SEvent) (st : RunnerState) (q : ℚ)
    (h : PtrShape orig st) (hne : orig ≠ []) :
    (processEvents st q).1.currentEventIndex =
      ((processEvents st q).1.nextEventPointer : ℤ) := by
  have hemp : ¬(st.events.length = 0) := by
    rw [h.1, markFirst_length, loadedEvents_length]
    exact fun hz => hne (List.length_eq_zero.mp hz)
  have hmatch : (processEvents st q).1.currentEventIndex =
      (match findIndexPending (processEvents st q).1.events with
        | none => ((processEvents st q).1.events.length : ℤ)
        | some i => (i : ℤ)) := by
    simp only [processEvents, if_neg hemp, updateCurrentEventIndex]
  rw [hmatch]
  exact index_of_shape orig _ (processEvents_spec orig st q h).1

theorem loadScenario_idxShape (st : RunnerState) (scn : Scenario) :
    IdxShape (scn.events.getD []) (loadScenario st scn) := by
  refine ⟨loadScenario_ptrShape st scn, ?_, ?_⟩
  · intro hne
    rw [loadScenario_index, loadScenario_pointer]
    rw [if_pos (by simpa [List.length_eq_zero] using hne)]
    rfl
  · intro he
    rw [loadScenario_index]
    rw [if_neg (by simp [he])]

theorem runTicks_idx (orig : List SEvent) (st : RunnerState) (es : List ℚ)
    (h : IdxShape orig st) : IdxShape orig (runTicks st es).1 := by
  induction es generalizing st with
  | nil => exact h
  | cons q es ih =>
    apply ih
    obtain ⟨hps, hne, hemp⟩ := h
    refine ⟨(processEvents_spec orig st q hps).1, ?_, ?_⟩
    · intro horig
      exact processEvents_index orig st q hps horig
    · intro horig
      have hz : st.events.length = 0 := by
        rw [hps.1, markFirst_length, loadedEvents_length, horig]
        rfl
      have hpe : processEvents st q = (st, []) := by
        simp [processEvents, hz]
      rw [hpe]
      exact hemp horig

/-- Claim C6 counterexample: loading a scenario whose event list is empty
sets the current event index to -1, not the event count 0 the claim asserts. -/
theorem claim_C6_counterexample :
    (loadScenario initialRunnerState emptyScenario).currentEventIndex ≠
      ((loadScenario initialRunnerState emptyScenario).events.length : ℤ) := by
  decide

/-- Claim C6 (amended): after loadScenario and after every processEvents
call, for a scenario with a nonempty event list, the stored current event
index is in range, every event before it is completed, and the event at it
(if any) is the first still-pending one — i.e. it equals the index of the
first pending event, or the event count if none remain; for an empty event
list, the stored index is -1 (not 0 = the event count). -/
theorem claim_C6_amended (scn : Scenario) (es : List ℚ) :
    (scn.events.getD [] ≠ [] →
      0 ≤ (runTicks (loadScenario initialRunnerState scn) es).1.currentEventIndex ∧
      (runTicks (loadScenario initialRunnerState scn) es).1.currentEventIndex ≤
        ((runTicks (loadScenario initialRunnerState scn) es).1.events.length : ℤ) ∧
      (∀ e ∈ (runTicks (loadScenario initialRunnerState scn) es).1.events.take
          (runTicks (loadScenario initialRunnerState scn) es).1.currentEventIndex.toNat,
        e.status = .completed) ∧
      (∀ e ∈ ((runTicks (loadScenario initialRunnerState scn) es).1.events.drop
          (runTicks (loadScenario initialRunnerState scn) es).1.currentEventIndex.toNat).head?,
        e.status = .pending)) ∧
    (scn.events.getD [] = [] →
      (runTicks (loadScenario initialRunnerState scn) es).1.currentEventIndex = -1) := by
  obtain ⟨hps, hidx, hidxe⟩ :=
    runTicks_idx (scn.events.getD []) _ es (loadScenario_idxShape initialRunnerState scn)
  constructor
  · intro hne
    have hidx' := hidx hne
    have htoNat : (runTicks (loadScenario initialRunnerState scn) es).1.currentEventIndex.toNat
        = (runTicks (loadScenario initialRunnerState scn) es).1.nextEventPointer := by
      rw [hidx']
      exact Int.toNat_natCast _
    refine ⟨?_, ?_, ?_, ?_⟩
    · rw [hidx']
      exact Int.natCast_nonneg _
    · rw [hidx', hps.1, markFirst_length]
      exact_mod_cast hps.2
    · intro e he
      rw [htoNat, ptrShape_take hps] at he
      obtain ⟨a, _, rfl⟩ := List.mem_map.mp he
      rfl
    · intro e he
      rw [htoNat, ptrShape_drop hps] at he
      exact loadedEvents_status e
        (List.mem_of_mem_drop (List.mem_of_mem_head? he))
  · exact hidxe

/-- Claim C6 witness: the nonempty-scenario part of the amended claim,
instantiated at the t = [5,10,10,20] scenario after a tick at elapsed 12. -/
theorem claim_C6_witness :
    0 ≤ (runTicks (loadScenario initialRunnerState exScenario) [12]).1.currentEventIndex ∧
    (runTicks (loadScenario initialRunnerState exScenario) [12]).1.currentEventIndex ≤
      ((runTicks (loadScenario initialRunnerState exScenario) [12]).1.events.length : ℤ) :=
  ⟨((claim_C6_amended exScenario [12]).1 (by decide)).1,
   ((claim_C6_amended exScenario [12]).1 (by decide)).2.1⟩

/-! Duration resolution (claim C9). -/

theorem le_foldl_jsMax (l : List SEvent) (a : ℚ) :
    a ≤ l.foldl (fun acc e => jsMax acc (tVal e)) a := by
  induction l generalizing a with
  | nil => exact le_refl a
  | cons e l ih => exact le_trans (le_jsMax_left _ _) (ih _)

theorem mem_le_foldl_jsMax {l : List SEvent} (a : ℚ) {e : SEvent} (he : e ∈ l) :
    tVal e ≤ l.foldl (fun acc x => jsMax acc (tVal x)) a := by
  induction l generalizing a with
  | nil => cases he
  | cons f l ih =>
    rcases List.mem_cons.mp he with rfl | he
    · exact le_trans (le_jsMax_right _ _) (le_foldl_jsMax _ _)
    · exact ih _ he

theorem foldl_jsMax_cases (l : List SEvent) (a : ℚ) :
    l.foldl (fun acc x => jsMax acc (tVal x)) a = a ∨
      ∃ e ∈ l, l.foldl (fun acc x => jsMax acc (tVal x)) a = tVal e := by
  induction l generalizing a with
  | nil => exact Or.inl rfl
  | cons f l ih =>
    rcases ih (jsMax a (tVal f)) with h | ⟨e, he, h⟩
    · by_cases hf : a ≤ tVal f
      · refine Or.inr ⟨f, List.mem_cons_self f l, ?_⟩
        show List.foldl _ (jsMax a (tVal f)) l = tVal f
        rw [h, jsMax, if_pos hf]
      · refine Or.inl ?_
        show List.foldl _ (jsMax a (tVal f)) l = a
        rw [h, jsMax, if_neg hf]
    · exact Or.inr ⟨e, List.mem_cons_of_mem f he, h⟩

/-- Claim C9: loadScenario resolves the playback duration as
scenario.durationSec when present, else max(90, maxEventTime + 30): the
resolved duration is at least 90, dominates every event time plus 30, and is
either 90 or exactly some event time plus 30; concretely, durationSec absent
with events at t = 60 and t = 200 resolves to 230 seconds. -/
theorem claim_C9 :
    (∀ scn : Scenario,
      (∀ d, scn.durationSec = some d →
        (loadScenario initialRunnerState scn).duration = d) ∧
      (scn.durationSec = none →
        90 ≤ (loadScenario initialRunnerState scn).duration ∧
        (∀ e ∈ scn.events.getD [],
          tVal e + 30 ≤ (loadScenario initialRunnerState scn).duration) ∧
        ((loadScenario initialRunnerState scn).duration = 90 ∨
          ∃ e ∈ scn.events.getD [],
            (loadScenario initialRunnerState scn).duration = tVal e + 30))) ∧
    (loadScenario initialRunnerState durScenario).duration = 230 := by
  constructor
  · intro scn
    constructor
    · intro d hd
      rw [loadScenario_duration, computeDurationSeconds, hd]
    · intro hd
      rw [loadScenario_duration, computeDurationSeconds, hd]
      refine ⟨le_jsMax_left _ _, ?_, ?_⟩
      · intro e he
        have h1 : tVal e ≤ (scn.events.getD []).foldl
            (fun acc x => jsMax acc (tVal x)) 0 := mem_le_foldl_jsMax 0 he
        calc tVal e + 30 ≤ (scn.events.getD []).foldl
              (fun acc x => jsMax acc (tVal x)) 0 + 30 := by linarith
          _ ≤ _ := le_jsMax_right _ _
      · by_cases h : (90 : ℚ) ≤ (scn.events.getD []).foldl
            (fun acc x => jsMax acc (tVal x)) 0 + 30
        · rcases foldl_jsMax_cases (scn.events.getD []) 0 with hz | ⟨e, he, hez⟩
          · exfalso
            rw [hz] at h
            norm_num at h
          · refine Or.inr ⟨e, he, ?_⟩
            rw [jsMax, if_pos h, hez]
        · refine Or.inl ?_
          rw [jsMax, if_neg h]
  · rw [loadScenario_duration]
    show computeDurationSeconds (some durScenario) = 230
    norm_num [computeDurationSeconds, durScenario, tVal, jsMax]

/-- Claim C9 witness: the durationSec-absent branch of the claim at the
events-at-60-and-200 scenario. -/
theorem claim_C9_witness :
    90 ≤ (loadScenario initialRunnerState durScenario).duration ∧
    (loadScenario initialRunnerState durScenario).duration = 230 :=
  ⟨(((claim_C9.1 durScenario).2 rfl)).1, claim_C9.2⟩

/-! Engine: heading normalization. -/

theorem jsMod360_bounds (a : ℚ) : -360 < jsMod a 360 ∧ jsMod a 360 < 360 := by
  unfold jsMod ratTrunc
  by_cases hq : a / 360 < 0
  · rw [if_pos hq]
    have h1 : a / 360 ≤ (⌈a / 360⌉ : ℚ) := Int.le_ceil _
    have h2 : (⌈a / 360⌉ : ℚ) < a / 360 + 1 := Int.ceil_lt_add_one _
    have h1' : a ≤ (⌈a / 360⌉ : ℚ) * 360 := by
      rw [← div_le_iff (by norm_num : (0:ℚ) < 360)]
      exact h1
    have h2' : ((⌈a / 360⌉ : ℚ) - 1) * 360 < a := by
      rw [← lt_div_iff (by norm_num : (0:ℚ) < 360)]
      linarith
    constructor <;> nlinarith
  · rw [if_neg hq]
    have h1 : (⌊a / 360⌋ : ℚ) ≤ a / 360 := Int.floor_le _
    have h2 : a / 360 < (⌊a / 360⌋ : ℚ) + 1 := Int.lt_floor_add_one _
    have h1' : (⌊a / 360⌋ : ℚ) * 360 ≤ a := by
      rw [← le_div_iff (by norm_num : (0:ℚ) < 360)]
      exact h1
    have h2' : a < ((⌊a / 360⌋ : ℚ) + 1) * 360 := by
      rw [← div_lt_iff (by norm_num : (0:ℚ) < 360)]
      exact h2
    constructor <;> nlinarith

theorem normalizeHeading_mem (a : ℚ) :
    0 ≤ normalizeHeading a ∧ normalizeHeading a < 360 := by
  obtain ⟨hlo, hhi⟩ := jsMod360_bounds a
  unfold normalizeHeading
  by_cases h : jsMod a 360 < 0
  · rw [if_pos h]
    constructor <;> linarith
  · rw [if_neg h]
    exact ⟨not_lt.mp h, hhi⟩

/-! Engine: reducing updatePosition on an accepted tick. -/

theorem updatePosition_valid (T : Trig) (s : SimState) {ts L : ℚ}
    (hrun : s.isRunning = true) (hL : s.lastTimestamp = some L)
    (h1 : 0 < (ts - L) / 1000) (h2 : (ts - L) / 1000 ≤ 0.1) :
    updatePosition T s ts = validTick T s ts ((ts - L) / 1000) := by
  unfold updatePosition
  rw [hL, hrun]
  rw [if_neg (by simp)]
  rw [if_neg (by push_neg; exact ⟨h1, h2⟩)]

theorem validTick_speedMps (T : Trig) (s : SimState) (ts dt : ℚ) :
    (validTick T s ts dt).speedMps = (tickSpeed s dt).2 := by
  unfold validTick
  dsimp only
  split <;> rfl

theorem validTick_speedInput (T : Trig) (s : SimState) (ts dt : ℚ) :
    (validTick T s ts dt).speedInput = (tickSpeed s dt).1 := by
  unfold validTick
  dsimp only
  split <;> rfl

theorem validTick_headingDeg (T : Trig) (s : SimState) (ts dt : ℚ) :
    (validTick T s ts dt).headingDeg = tickHeadingDeg s dt := by
  unfold validTick
  dsimp only
  split <;> rfl

theorem validTick_turnInput (T : Trig) (s : SimState) (ts dt : ℚ) :
    (validTick T s ts dt).turnInput = (tickHeading s).turnInput := by
  unfold validTick
  dsimp only
  split <;> rfl

theorem validTick_pitchAngleDeg (T : Trig) (s : SimState) (ts dt : ℚ) :
    (validTick T s ts dt).pitchAngleDeg = tickPitchAngle T s dt := by
  unfold validTick
  dsimp only
  split <;> rfl

theorem validTick_pitchInput (T : Trig) (s : SimState) (ts dt : ℚ) :
    (validTick T s ts dt).pitchInput = (tickPitchOut T s dt).pitchInput := by
  unfold validTick
  dsimp only
  split <;> rfl

theorem validTick_targetAltitudeFt (T : Trig) (s : SimState) (ts dt : ℚ) :
    (validTick T s ts dt).targetAltitudeFt = (tickPitchOut T s dt).targetAltitudeFt := by
  unfold validTick
  dsimp only
  split <;> rfl

theorem validTick_targetHeadingDeg (T : Trig) (s : SimState) (ts dt : ℚ) :
    (validTick T s ts dt).targetHeadingDeg = s.targetHeadingDeg := by
  unfold validTick
  dsimp only
  split <;> rfl

theorem validTick_targetSpeedKt (T : Trig) (s : SimState) (ts dt : ℚ) :
    (validTick T s ts dt).targetSpeedKt = s.targetSpeedKt := by
  unfold validTick
  dsimp only
  split <;> rfl

theorem validTick_z (T : Trig) (s : SimState) (ts dt : ℚ) :
    (validTick T s ts dt).z = tickZ T s dt := by
  unfold validTick
  dsimp only
  split <;> rfl

theorem validTick_x (T : Trig) (s : SimState) (ts dt : ℚ) :
    (validTick T s ts dt).x = tickX T s dt := by
  unfold validTick
  dsimp only
  split <;> rfl

theorem validTick_y (T : Trig) (s : SimState) (ts dt : ℚ) :
    (validTick T s ts dt).y = tickY T s dt := by
  unfold validTick
  dsimp only
  split <;> rfl

/-! Engine: clamping facts. -/

theorem jsClamp_bounds {lo hi : ℚ} (X : ℚ) (h : lo ≤ hi) :
    lo ≤ jsMax lo (jsMin hi X) ∧ jsMax lo (jsMin hi X) ≤ hi :=
  ⟨le_jsMax_left _ _, by
    rw [jsMax_eq, jsMin_eq]
    exact max_le h (min_le_left _ _)⟩

theorem minSpeed_le_maxSpeed : minSpeedMps ≤ maxSpeedMps := by
  norm_num [minSpeedMps, maxSpeedMps, KT_TO_MPS]

theorem speedStep_bounds (tk : Option ℚ) (si sm dt : ℚ) :
    minSpeedMps ≤ (speedStep tk si sm dt).2 ∧
      (speedStep tk si sm dt).2 ≤ maxSpeedMps := by
  unfold speedStep
  exact jsClamp_bounds _ minSpeed_le_maxSpeed

theorem smoothStep_bounds {lo hi cur tgt mc : ℚ} (h1 : lo ≤ cur) (h2 : cur ≤ hi)
    (h3 : lo ≤ tgt) (h4 : tgt ≤ hi) (h5 : 0 ≤ mc) :
    lo ≤ smoothStep cur tgt mc ∧ smoothStep cur tgt mc ≤ hi := by
  unfold smoothStep jsSign
  dsimp only
  by_cases habs : |tgt - cur| > mc
  · rw [if_pos habs]
    by_cases hneg : tgt - cur < 0
    · rw [if_pos hneg, abs_of_neg hneg] at *
      constructor <;> linarith
    · rw [if_neg hneg]
      by_cases hpos : 0 < tgt - cur
      · rw [if_pos hpos, abs_of_nonneg (not_lt.mp hneg)] at *
        constructor <;> linarith
      · rw [if_neg hpos]
        constructor <;> linarith
  · rw [if_neg habs]
    constructor <;> linarith

theorem pitchTargetStep_bounds (T : Trig) (taf vsl : Option ℚ) (org z pin sp : ℚ) :
    -maxPitchAngleDeg ≤ (pitchTargetStep T taf vsl org z pin sp).targetPitchAngleDeg ∧
      (pitchTargetStep T taf vsl org z pin sp).targetPitchAngleDeg ≤ maxPitchAngleDeg := by
  have hmm : -maxPitchAngleDeg ≤ maxPitchAngleDeg := by norm_num [maxPitchAngleDeg]
  have h0 : -maxPitchAngleDeg ≤ (0:ℚ) ∧ (0:ℚ) ≤ maxPitchAngleDeg := by
    norm_num [maxPitchAngleDeg]
  unfold pitchTargetStep
  cases taf with
  | none =>
    dsimp only
    split
    · exact jsClamp_bounds _ hmm
    · exact h0
  | some taf =>
    dsimp only
    split
    · split
      · exact jsClamp_bounds _ hmm
      · exact h0
    · exact h0

theorem smoothStep_self (c m : ℚ) : smoothStep c c m = c := by
  unfold smoothStep jsSign
  dsimp only
  rw [sub_self]
  split
  · simp
  · simp

theorem smoothStep_snap {c t m : ℚ} (h : |t - c| ≤ m) : smoothStep c t m = t := by
  unfold smoothStep
  dsimp only
  rw [if_neg (not_lt.mpr h)]
  ring

theorem toRadians_zero : toRadians 0 = 0 := by
  norm_num [toRadians]

theorem normalizeHeading_of_mem {a : ℚ} (h0 : 0 ≤ a) (h1 : a < 360) :
    normalizeHeading a = a := by
  unfold normalizeHeading jsMod ratTrunc
  dsimp only
  have hq : ¬(a / 360 < 0) := not_lt.mpr (div_nonneg h0 (by norm_num))
  rw [if_neg hq]
  have hfl : ⌊a / 360⌋ = 0 := by
    rw [Int.floor_eq_zero_iff]
    constructor
    · exact div_nonneg h0 (by norm_num)
    · rw [div_lt_one (by norm_num : (0:ℚ) < 360)]
      exact h1
  rw [hfl]
  push_cast
  rw [if_neg (by push_neg; linarith)]
  ring

/-- Claim C2: for every engine state with speed in [minSpeedMps, maxSpeedMps]
and every accepted tick (0 < dt ≤ 0.1 s), the post-tick speed stays in
[minSpeedMps, maxSpeedMps], manual input, speed targets and the snap branch
included (the integration line clamps unconditionally). -/
theorem claim_C2 (T : Trig) (s : SimState) (ts L : ℚ)
    (hrun : s.isRunning = true) (hL : s.lastTimestamp = some L)
    (h1 : 0 < (ts - L) / 1000) (h2 : (ts - L) / 1000 ≤ 0.1)
    (hlo : minSpeedMps ≤ s.speedMps) (hhi : s.speedMps ≤ maxSpeedMps) :
    minSpeedMps ≤ (updatePosition T s ts).speedMps ∧
      (updatePosition T s ts).speedMps ≤ maxSpeedMps := by
  rw [updatePosition_valid T s hrun hL h1 h2, validTick_speedMps]
  exact speedStep_bounds _ _ _ _

/-- Claim C2 witness: the bound at a concrete running state and tick. -/
theorem claim_C2_witness :
    minSpeedMps ≤ (updatePosition trigZero witState 1100).speedMps ∧
      (updatePosition trigZero witState 1100).speedMps ≤ maxSpeedMps :=
  claim_C2 trigZero witState 1100 1000 rfl rfl (by norm_num) (by norm_num)
    (by norm_num [witState, createSim, minSpeedMps, KT_TO_MPS])
    (by norm_num [witState, createSim, maxSpeedMps, KT_TO_MPS])

/-- Claim C8: after every accepted tick the heading lies in [0, 360),
whatever the accumulated turn, heading-target snap, or turn-rate sign: the
heading written by the tick is normalizeHeading of the integrated value. -/
theorem claim_C8 (T : Trig) (s : SimState) (ts L : ℚ)
    (hrun : s.isRunning = true) (hL : s.lastTimestamp = some L)
    (h1 : 0 < (ts - L) / 1000) (h2 : (ts - L) / 1000 ≤ 0.1) :
    0 ≤ (updatePosition T s ts).headingDeg ∧
      (updatePosition T s ts).headingDeg < 360 := by
  rw [updatePosition_valid T s hrun hL h1 h2, validTick_headingDeg, tickHeadingDeg]
  exact normalizeHeading_mem _

/-- Claim C8 witness: the bound at a concrete running state and tick. -/
theorem claim_C8_witness :
    0 ≤ (updatePosition trigZero witState 1100).headingDeg ∧
      (updatePosition trigZero witState 1100).headingDeg < 360 :=
  claim_C8 trigZero witState 1100 1000 rfl rfl (by norm_num) (by norm_num)

/-- Claim C10: for every engine state with pitch in
[-maxPitchAngleDeg, maxPitchAngleDeg] = [-15, 15] and every accepted tick,
the post-tick pitch stays in that range: the pitch target of every branch is
clamped to the range and the rate-limited smoothing step never overshoots. -/
theorem claim_C10 (T : Trig) (s : SimState) (ts L : ℚ)
    (hrun : s.isRunning = true) (hL : s.lastTimestamp = some L)
    (h1 : 0 < (ts - L) / 1000) (h2 : (ts - L) / 1000 ≤ 0.1)
    (hlo : -maxPitchAngleDeg ≤ s.pitchAngleDeg)
    (hhi : s.pitchAngleDeg ≤ maxPitchAngleDeg) :
    -maxPitchAngleDeg ≤ (updatePosition T s ts).pitchAngleDeg ∧
      (updatePosition T s ts).pitchAngleDeg ≤ maxPitchAngleDeg := by
  rw [updatePosition_valid T s hrun hL h1 h2, validTick_pitchAngleDeg, tickPitchAngle]
  have hb := pitchTargetStep_bounds T s.targetAltitudeFt s.verticalSpeedLimitFpm
    s.currentOriginAltitudeMeters s.z s.pitchInput (tickSpeed s ((ts - L) / 1000)).2
  have hmc : 0 ≤ pitchAngleSmoothingRate * ((ts - L) / 1000) := by
    have : (0:ℚ) ≤ pitchAngleSmoothingRate := by norm_num [pitchAngleSmoothingRate]
    exact mul_nonneg this h1.le
  exact smoothStep_bounds hlo hhi hb.1 hb.2 hmc

/-- Claim C10 witness: the bound at a concrete running state and tick. -/
theorem claim_C10_witness :
    -maxPitchAngleDeg ≤ (updatePosition trigZero witState 1100).pitchAngleDeg ∧
      (updatePosition trigZero witState 1100).pitchAngleDeg ≤ maxPitchAngleDeg :=
  claim_C10 trigZero witState 1100 1000 rfl rfl (by norm_num) (by norm_num)
    (by norm_num [witState, createSim, maxPitchAngleDeg])
    (by norm_num [witState, createSim, maxPitchAngleDeg])

/-! Engine: horizontal displacement (claim C4).  Shared evaluation lemmas for
an accepted tick in steady level flight (no turn or pitch activity). -/

theorem tickHeading_steady {s : SimState} (ht : s.targetHeadingDeg = none)
    (htu : s.turnInput = 0) : tickHeading s = ⟨0, s.headingDeg, 0⟩ := by
  unfold tickHeading headingStep
  rw [ht, htu]
  dsimp only
  rw [zero_mul]

theorem tickHeadingDeg_steady {s : SimState} (dt : ℚ) (ht : s.targetHeadingDeg = none)
    (htu : s.turnInput = 0) (h0 : 0 ≤ s.headingDeg) (h1 : s.headingDeg < 360) :
    tickHeadingDeg s dt = s.headingDeg := by
  unfold tickHeadingDeg
  rw [tickHeading_steady ht htu]
  dsimp only
  rw [zero_mul, add_zero]
  exact normalizeHeading_of_mem h0 h1

theorem tickPitchOut_steady (T : Trig) {s : SimState} (dt : ℚ)
    (hta : s.targetAltitudeFt = none) (hpi : s.pitchInput = 0) :
    tickPitchOut T s dt = ⟨0, s.pitchInput, s.z, none⟩ := by
  unfold tickPitchOut pitchTargetStep
  rw [hta]
  dsimp only
  rw [hpi]
  rw [if_neg (by norm_num)]

theorem tickPitchAngle_steady (T : Trig) {s : SimState} (dt : ℚ)
    (hta : s.targetAltitudeFt = none) (hpi : s.pitchInput = 0)
    (hp : s.pitchAngleDeg = 0) : tickPitchAngle T s dt = 0 := by
  unfold tickPitchAngle
  rw [tickPitchOut_steady T dt hta hpi, hp]
  exact smoothStep_self 0 _

theorem tickSpeed_pos (s : SimState) (dt : ℚ) : 0 < (tickSpeed s dt).2 := by
  have h := (speedStep_bounds s.targetSpeedKt s.speedInput s.speedMps dt).1
  have : (0:ℚ) < minSpeedMps := by norm_num [minSpeedMps, KT_TO_MPS]
  exact lt_of_lt_of_le this h

theorem tickDist_level (T : Trig) {s : SimState} (dt : ℚ)
    (hta : s.targetAltitudeFt = none) (hpi : s.pitchInput = 0)
    (hp : s.pitchAngleDeg = 0) (hcos : T.cos 0 = 1) :
    tickDist T s dt = (tickSpeed s dt).2 * dt := by
  unfold tickDist
  rw [tickPitchAngle_steady T dt hta hpi hp, toRadians_zero, hcos]
  ring

/-- Level flight at heading 0: x is unchanged and y strictly DECREASES by
speed·dt (the code subtracts the north component: Mapbox y grows southward). -/
theorem tickLevelNorth (T : Trig) (s : SimState) {ts L : ℚ}
    (hrun : s.isRunning = true) (hL : s.lastTimestamp = some L)
    (h1 : 0 < (ts - L) / 1000) (h2 : (ts - L) / 1000 ≤ 0.1)
    (hh : s.headingDeg = 0) (ht : s.targetHeadingDeg = none) (htu : s.turnInput = 0)
    (hp : s.pitchAngleDeg = 0) (hta : s.targetAltitudeFt = none) (hpi : s.pitchInput = 0)
    (hsin : T.sin 0 = 0) (hcos : T.cos 0 = 1) :
    (updatePosition T s ts).x = s.x ∧
    (updatePosition T s ts).y =
      s.y - (updatePosition T s ts).speedMps * ((ts - L) / 1000) ∧
    (updatePosition T s ts).y < s.y := by
  rw [updatePosition_valid T s hrun hL h1 h2]
  have hhdg : tickHeadingDeg s ((ts - L) / 1000) = 0 := by
    rw [tickHeadingDeg_steady _ ht htu (by rw [hh]) (by rw [hh]; norm_num), hh]
  have hdist := tickDist_level T ((ts - L) / 1000) hta hpi hp hcos
  have hdpos : 0 < tickDist T s ((ts - L) / 1000) := by
    rw [hdist]
    exact mul_pos (tickSpeed_pos s _) h1
  refine ⟨?_, ?_, ?_⟩
  · rw [validTick_x]
    unfold tickX
    rw [hhdg, toRadians_zero, hsin]
    ring
  · rw [validTick_y, validTick_speedMps]
    unfold tickY
    rw [hhdg, toRadians_zero, hcos, hdist]
    ring
  · rw [validTick_y]
    unfold tickY
    rw [hhdg, toRadians_zero, hcos]
    linarith

/-- Level flight at heading 90: x strictly increases (east). -/
theorem tickLevelEast (T : Trig) (s : SimState) {ts L : ℚ}
    (hrun : s.isRunning = true) (hL : s.lastTimestamp = some L)
    (h1 : 0 < (ts - L) / 1000) (h2 : (ts - L) / 1000 ≤ 0.1)
    (hh : s.headingDeg = 90) (ht : s.targetHeadingDeg = none) (htu : s.turnInput = 0)
    (hp : s.pitchAngleDeg = 0) (hta : s.targetAltitudeFt = none) (hpi : s.pitchInput = 0)
    (hcos : T.cos 0 = 1) (hsin90 : T.sin (toRadians 90) = 1) :
    s.x < (updatePosition T s ts).x := by
  rw [updatePosition_valid T s hrun hL h1 h2]
  have hhdg : tickHeadingDeg s ((ts - L) / 1000) = 90 := by
    rw [tickHeadingDeg_steady _ ht htu (by rw [hh]; norm_num) (by rw [hh]; norm_num), hh]
  have hdist := tickDist_level T ((ts - L) / 1000) hta hpi hp hcos
  have hdpos : 0 < tickDist T s ((ts - L) / 1000) := by
    rw [hdist]
    exact mul_pos (tickSpeed_pos s _) h1
  rw [validTick_x]
  unfold tickX
  rw [hhdg, hsin90]
  linarith

/-- Claim C4 counterexample: at a concrete running level state at heading 0,
an accepted tick strictly DECREASES y, contradicting the claim that a tick
flown at heading 0 strictly increases y (moves north).  The trig table used
is exact at the only evaluated point (0 radians). -/
theorem claim_C4_counterexample :
    witState.headingDeg = 0 ∧
    (updatePosition trigUnitCos witState 1100).y < witState.y :=
  ⟨rfl, (tickLevelNorth trigUnitCos witState rfl rfl (by norm_num) (by norm_num)
    rfl rfl rfl rfl rfl rfl rfl rfl).2.2⟩

/-- Claim C4 (amended): the horizontal displacement has magnitude
speed·cos(pitch)·Δt and is decomposed by heading with east on +x, but the
north component is SUBTRACTED from y (the code's y grows southward): in level
flight, a tick at heading 0 leaves x unchanged and strictly decreases y by
speed·Δt, and a tick at heading 90 strictly increases x. -/
theorem claim_C4_amended :
    (∀ (T : Trig) (s : SimState) (ts L : ℚ),
      s.isRunning = true → s.lastTimestamp = some L →
      0 < (ts - L) / 1000 → (ts - L) / 1000 ≤ 0.1 →
      s.headingDeg = 0 → s.targetHeadingDeg = none → s.turnInput = 0 →
      s.pitchAngleDeg = 0 → s.targetAltitudeFt = none → s.pitchInput = 0 →
      T.sin 0 = 0 → T.cos 0 = 1 →
      (updatePosition T s ts).x = s.x ∧
      (updatePosition T s ts).y =
        s.y - (updatePosition T s ts).speedMps * ((ts - L) / 1000) ∧
      (updatePosition T s ts).y < s.y) ∧
    (∀ (T : Trig) (s : SimState) (ts L : ℚ),
      s.isRunning = true → s.lastTimestamp = some L →
      0 < (ts - L) / 1000 → (ts - L) / 1000 ≤ 0.1 →
      s.headingDeg = 90 → s.targetHeadingDeg = none → s.turnInput = 0 →
      s.pitchAngleDeg = 0 → s.targetAltitudeFt = none → s.pitchInput = 0 →
      T.cos 0 = 1 → T.sin (toRadians 90) = 1 →
      s.x < (updatePosition T s ts).x) :=
  ⟨fun T s ts L hrun hL h1 h2 hh ht htu hp hta hpi hsin hcos =>
      tickLevelNorth T s hrun hL h1 h2 hh ht htu hp hta hpi hsin hcos,
   fun T s ts L hrun hL h1 h2 hh ht htu hp hta hpi hcos hsin90 =>
      tickLevelEast T s hrun hL h1 h2 hh ht htu hp hta hpi hcos hsin90⟩

/-! Engine: the in-tolerance snaps (claim C3). -/

theorem tickPitchOut_snap (T : Trig) {s : SimState} (dt : ℚ) {A : ℚ}
    (hta : s.targetAltitudeFt = some A)
    (htol : |A * FT_TO_M - s.currentOriginAltitudeMeters - s.z| ≤
      ALTITUDE_TOLERANCE_M) :
    tickPitchOut T s dt = ⟨0, 0, A * FT_TO_M - s.currentOriginAltitudeMeters, none⟩ := by
  unfold tickPitchOut pitchTargetStep
  rw [hta]
  dsimp only
  rw [if_neg (not_lt.mpr htol)]

theorem smoothStep_down {c t m : ℚ} (h : m < c - t) (hm : 0 ≤ m) :
    smoothStep c t m = c - m := by
  unfold smoothStep jsSign
  dsimp only
  have hd : t - c < 0 := by linarith
  rw [abs_of_neg hd, if_pos (by linarith), if_pos hd]
  ring

theorem tickVertical_level (T : Trig) {s : SimState} (dt : ℚ)
    (hpa : tickPitchAngle T s dt = 0) (hsin : T.sin 0 = 0)
    (hvsl : ∀ lim ∈ s.verticalSpeedLimitFpm, 0 ≤ lim) :
    tickVertical T s dt = 0 := by
  unfold tickVertical verticalStep
  rw [hpa, toRadians_zero, hsin, mul_zero]
  dsimp only
  rw [if_neg (by norm_num)]
  have hv1 : jsMax 0 (-maxDescentRateMps) = 0 := by
    norm_num [jsMax, maxDescentRateMps]
  rw [hv1]
  cases hsome : s.verticalSpeedLimitFpm with
  | none => rfl
  | some lim =>
    have hlim : 0 ≤ lim := hvsl lim (by rw [hsome]; exact rfl)
    have hlm : 0 ≤ lim * FPM_TO_MPS := mul_nonneg hlim (by norm_num [FPM_TO_MPS])
    dsimp only
    rw [jsMax_eq, jsMin_eq, min_eq_right hlm, max_eq_right (by linarith)]

theorem tickHeading_snap {s : SimState} {H : ℚ} (ht : s.targetHeadingDeg = some H)
    (htol : |normalizeHeadingDiff (H - s.headingDeg)| ≤ HEADING_TOLERANCE_DEG) :
    tickHeading s = ⟨0, H, 0⟩ := by
  unfold tickHeading headingStep
  rw [ht]
  dsimp only
  rw [if_neg (not_lt.mpr htol)]

theorem tickSpeed_snap {s : SimState} {K : ℚ} (dt : ℚ) (hts : s.targetSpeedKt = some K)
    (htol : |K * KT_TO_MPS - s.speedMps| ≤ SPEED_TOLERANCE_MPS)
    (hlo : minSpeedMps ≤ K * KT_TO_MPS) (hhi : K * KT_TO_MPS ≤ maxSpeedMps) :
    (tickSpeed s dt).2 = K * KT_TO_MPS := by
  unfold tickSpeed speedStep
  rw [hts]
  dsimp only
  rw [if_neg (not_lt.mpr htol)]
  dsimp only
  rw [zero_mul, zero_mul, add_zero, jsMax_eq, jsMin_eq, min_eq_right hhi,
    max_eq_right hlo]

/-- Claim C3 counterexample: a running state within the 10 m tolerance of its
altitude target but still pitched up 10 degrees.  The tick sets z to the
target and clears the target, but then integrates the vertical speed of the
still-decaying pitch (9.7 degrees) during the same tick, so the post-tick
altitude is NOT exactly the target.  The trig table returns 1/6 for the one
evaluated sine (the real sin(9.7 degrees) is 0.1685...). -/
theorem claim_C3_counterexample :
    cexAltState.targetAltitudeFt = some 10000 ∧
    |10000 * FT_TO_M - cexAltState.currentOriginAltitudeMeters - cexAltState.z| ≤
      ALTITUDE_TOLERANCE_M ∧
    (updatePosition trigSixth cexAltState 1100).z ≠
      10000 * FT_TO_M - cexAltState.currentOriginAltitudeMeters := by
  have htol : |(10000:ℚ) * FT_TO_M - cexAltState.currentOriginAltitudeMeters -
      cexAltState.z| ≤ ALTITUDE_TOLERANCE_M := by
    rw [abs_le]
    constructor <;> norm_num [cexAltState, createSim, FT_TO_M, ALTITUDE_TOLERANCE_M]
  refine ⟨rfl, htol, ?_⟩
  rw [updatePosition_valid trigSixth cexAltState rfl rfl (by norm_num) (by norm_num),
    validTick_z]
  have hpo := tickPitchOut_snap trigSixth ((1100 - 1000 : ℚ) / 1000)
    (A := 10000) rfl htol
  have hpa : tickPitchAngle trigSixth cexAltState ((1100 - 1000 : ℚ) / 1000) = 9.7 := by
    unfold tickPitchAngle
    rw [hpo]
    show smoothStep 10 0 (pitchAngleSmoothingRate * ((1100 - 1000 : ℚ) / 1000)) = 9.7
    rw [smoothStep_down (by norm_num [pitchAngleSmoothingRate])
      (by norm_num [pitchAngleSmoothingRate])]
    norm_num [pitchAngleSmoothingRate]
  have hsp : (tickSpeed cexAltState ((1100 - 1000 : ℚ) / 1000)).2 = 60 := by
    unfold tickSpeed speedStep
    show jsMax minSpeedMps (jsMin maxSpeedMps (60 + 0 * speedAccelMps2 *
      ((1100 - 1000 : ℚ) / 1000))) = 60
    norm_num [jsMax, jsMin, minSpeedMps, maxSpeedMps, KT_TO_MPS]
  have hvert : tickVertical trigSixth cexAltState ((1100 - 1000 : ℚ) / 1000) = 10 := by
    unfold tickVertical verticalStep
    rw [hpa, hsp]
    have hne : toRadians 9.7 ≠ 0 := by
      norm_num [toRadians, DEG_TO_RAD, PI_JS]
    show (if 60 * trigSixth.sin (toRadians 9.7) > 0 then
        jsMin (60 * trigSixth.sin (toRadians 9.7)) maxClimbRateMps
      else jsMax (60 * trigSixth.sin (toRadians 9.7)) (-maxDescentRateMps)) = 10
    rw [show trigSixth.sin (toRadians 9.7) = 1 / 6 from if_neg hne]
    norm_num [jsMin, maxClimbRateMps]
  unfold tickZ
  rw [hpo, hvert]
  norm_num [cexAltState, createSim, FT_TO_M]

/-- Claim C3 (amended): on an accepted tick with an altitude target within
the 10 m tolerance, the tick sets altitude to the target (exactly, provided
the pitch angle levels off within the tick, i.e. |pitch| ≤ 3°/s · Δt —
otherwise the same tick keeps integrating the leftover pitch and moves off
target), zeroes the pitch input, and clears the altitude target; an
in-tolerance heading target is snapped to with the target left set, and an
in-tolerance speed target is snapped to with the target left set. -/
theorem claim_C3_amended (T : Trig) (s : SimState) (ts L : ℚ)
    (hrun : s.isRunning = true) (hL : s.lastTimestamp = some L)
    (h1 : 0 < (ts - L) / 1000) (h2 : (ts - L) / 1000 ≤ 0.1) :
    (∀ A, s.targetAltitudeFt = some A →
      |A * FT_TO_M - s.currentOriginAltitudeMeters - s.z| ≤ ALTITUDE_TOLERANCE_M →
      |s.pitchAngleDeg| ≤ pitchAngleSmoothingRate * ((ts - L) / 1000) →
      T.sin 0 = 0 →
      (∀ lim ∈ s.verticalSpeedLimitFpm, 0 ≤ lim) →
      s.initialAltitudeMeters - 1000 ≤ A * FT_TO_M - s.currentOriginAltitudeMeters →
      (updatePosition T s ts).z = A * FT_TO_M - s.currentOriginAltitudeMeters ∧
      (updatePosition T s ts).pitchInput = 0 ∧
      (updatePosition T s ts).targetAltitudeFt = none) ∧
    (∀ H, s.targetHeadingDeg = some H →
      |normalizeHeadingDiff (H - s.headingDeg)| ≤ HEADING_TOLERANCE_DEG →
      (updatePosition T s ts).headingDeg = normalizeHeading H ∧
      (updatePosition T s ts).targetHeadingDeg = some H) ∧
    (∀ K, s.targetSpeedKt = some K →
      |K * KT_TO_MPS - s.speedMps| ≤ SPEED_TOLERANCE_MPS →
      minSpeedMps ≤ K * KT_TO_MPS → K * KT_TO_MPS ≤ maxSpeedMps →
      (updatePosition T s ts).speedMps = K * KT_TO_MPS ∧
      (updatePosition T s ts).targetSpeedKt = some K) := by
  rw [updatePosition_valid T s hrun hL h1 h2]
  refine ⟨?_, ?_, ?_⟩
  · intro A hta htol hlevel hsin hvsl hfloor
    have hpo := tickPitchOut_snap T ((ts - L) / 1000) hta htol
    have hpa : tickPitchAngle T s ((ts - L) / 1000) = 0 := by
      unfold tickPitchAngle
      rw [hpo]
      exact smoothStep_snap (by rw [zero_sub, abs_neg]; exact hlevel)
    have hvert := tickVertical_level T ((ts - L) / 1000) hpa hsin hvsl
    refine ⟨?_, ?_, ?_⟩
    · rw [validTick_z]
      unfold tickZ
      rw [hpo, hvert]
      dsimp only
      rw [zero_mul, add_zero]
      rw [if_neg (not_lt.mpr hfloor)]
    · rw [validTick_pitchInput, hpo]
    · rw [validTick_targetAltitudeFt, hpo]
  · intro H ht htol
    have hhd := tickHeading_snap ht htol
    constructor
    · rw [validTick_headingDeg]
      unfold tickHeadingDeg
      rw [hhd]
      dsimp only
      rw [zero_mul, add_zero]
    · rw [validTick_targetHeadingDeg, ht]
  · intro K hts htol hlo hhi
    constructor
    · rw [validTick_speedMps]
      exact tickSpeed_snap _ hts htol hlo hhi
    · rw [validTick_targetSpeedKt, hts]

/-- Claim C3 witness: all three snap behaviors at a concrete running state in
tolerance of its altitude (10000 ft), heading (5) and speed (100 kt) targets. -/
theorem claim_C3_witness :
    (updatePosition trigUnitCos witAltState 1100).z =
      10000 * FT_TO_M - witAltState.currentOriginAltitudeMeters ∧
    (updatePosition trigUnitCos witAltState 1100).pitchInput = 0 ∧
    (updatePosition trigUnitCos witAltState 1100).targetAltitudeFt = none ∧
    (updatePosition trigUnitCos witAltState 1100).headingDeg = normalizeHeading 5 ∧
    (updatePosition trigUnitCos witAltState 1100).targetHeadingDeg = some 5 ∧
    (updatePosition trigUnitCos witAltState 1100).speedMps = 100 * KT_TO_MPS ∧
    (updatePosition trigUnitCos witAltState 1100).targetSpeedKt = some 100 := by
  obtain ⟨ha, hh, hs⟩ := claim_C3_amended trigUnitCos witAltState 1100 1000 rfl rfl
    (by norm_num) (by norm_num)
  obtain ⟨h1, h2, h3⟩ := ha 10000 rfl
    (by rw [abs_le]; constructor <;>
      norm_num [witAltState, createSim, FT_TO_M, ALTITUDE_TOLERANCE_M])
    (by norm_num [witAltState, createSim, pitchAngleSmoothingRate])
    rfl
    (by rintro lim hmem; exact Option.noConfusion hmem)
    (by norm_num [witAltState, createSim, FT_TO_M])
  obtain ⟨h4, h5⟩ := hh 5 rfl
    (by norm_num [witAltState, createSim, normalizeHeadingDiff, HEADING_TOLERANCE_DEG])
  obtain ⟨h6, h7⟩ := hs 100 rfl
    (by rw [abs_le]; constructor <;>
      norm_num [witAltState, createSim, KT_TO_MPS, SPEED_TOLERANCE_MPS])
    (by norm_num [minSpeedMps, KT_TO_MPS])
    (by norm_num [maxSpeedMps, KT_TO_MPS])
  exact ⟨h1, h2, h3, h4, h5, h6, h7⟩

/-- Claim C4 witness: both parts of the amended claim at concrete states
(heading 0 with the cos-1 table, heading 90 with the step-sin table, each
exact at the points the run evaluates). -/
theorem claim_C4_witness :
    ((updatePosition trigUnitCos witState 1100).x = witState.x ∧
     (updatePosition trigUnitCos witState 1100).y =
       witState.y - (updatePosition trigUnitCos witState 1100).speedMps *
         ((1100 - 1000) / 1000) ∧
     (updatePosition trigUnitCos witState 1100).y < witState.y) ∧
    witState90.x < (updatePosition trigStepSin witState90 1100).x :=
  ⟨claim_C4_amended.1 trigUnitCos witState 1100 1000 rfl rfl (by norm_num)
      (by norm_num) rfl rfl rfl rfl rfl rfl rfl rfl,
   claim_C4_amended.2 trigStepSin witState90 1100 1000 rfl rfl (by norm_num)
      (by norm_num) rfl rfl rfl rfl rfl rfl rfl
      (by norm_num [trigStepSin, toRadians, DEG_TO_RAD, PI_JS])⟩

/-! Engine: trail trimming (claim C5). -/

theorem firstKeepIdx_lt {nd : ℚ} :
    ∀ {l : List HistSample} {i : ℕ}, firstKeepIdx nd l = some i → i + 1 < l.length := by
  intro l
  induction l with
  | nil => intro i h; simp [firstKeepIdx] at h
  | cons p rest ih =>
    cases rest with
    | nil => intro i h; simp [firstKeepIdx] at h
    | cons q rest' =>
      intro i h
      rw [firstKeepIdx] at h
      by_cases hc : nd - p.cumulativeDistance ≤ maxTrailDistanceM
      · rw [if_pos hc] at h
        cases h
        simp
      · rw [if_neg hc] at h
        cases hfk : firstKeepIdx nd (q :: rest') with
        | none => rw [hfk] at h; cases h
        | some j =>
          rw [hfk] at h
          have hj := ih hfk
          cases h
          simp only [List.length_cons] at hj ⊢
          omega

theorem firstKeepIdx_head {nd : ℚ} :
    ∀ {l : List HistSample} {i : ℕ}, firstKeepIdx nd l = some i →
      ∀ e ∈ (l.drop i).head?, nd - e.cumulativeDistance ≤ maxTrailDistanceM := by
  intro l
  induction l with
  | nil => intro i h; simp [firstKeepIdx] at h
  | cons p rest ih =>
    cases rest with
    | nil => intro i h; simp [firstKeepIdx] at h
    | cons q rest' =>
      intro i h
      rw [firstKeepIdx] at h
      by_cases hc : nd - p.cumulativeDistance ≤ maxTrailDistanceM
      · rw [if_pos hc] at h
        cases h
        intro e he
        simp only [List.drop_zero, List.head?_cons, Option.mem_def,
          Option.some.injEq] at he
        rw [← he]
        exact hc
      · rw [if_neg hc] at h
        cases hfk : firstKeepIdx nd (q :: rest') with
        | none => rw [hfk] at h; cases h
        | some j =>
          rw [hfk] at h
          cases h
          intro e he
          rw [List.drop_succ_cons] at he
          exact ih hfk e he

theorem firstKeepIdx_isSome {nd : ℚ} :
    ∀ {h : List HistSample} {lp : HistSample} (new : HistSample),
      h.getLast? = some lp → nd - lp.cumulativeDistance ≤ maxTrailDistanceM →
      (firstKeepIdx nd (h ++ [new])).isSome := by
  intro h
  induction h with
  | nil => intro lp new hl; simp at hl
  | cons p h' ih =>
    intro lp new hl hle
    cases h' with
    | nil =>
      simp only [List.getLast?_singleton, Option.some.injEq] at hl
      rw [← hl] at hle
      show (firstKeepIdx nd (p :: new :: [])).isSome
      rw [firstKeepIdx, if_pos hle]
      rfl
    | cons q h'' =>
      rw [List.getLast?_cons_cons] at hl
      show (firstKeepIdx nd (p :: ((q :: h'') ++ [new]))).isSome
      rw [show (q :: h'') ++ [new] = q :: (h'' ++ [new]) from rfl]
      rw [firstKeepIdx]
      by_cases hc : nd - p.cumulativeDistance ≤ maxTrailDistanceM
      · rw [if_pos hc]; rfl
      · rw [if_neg hc]
        have hsome := ih new hl hle
        rw [show (q :: h'') ++ [new] = q :: (h'' ++ [new]) from rfl] at hsome
        cases hfk2 : firstKeepIdx nd (q :: (h'' ++ [new])) with
        | none => rw [hfk2] at hsome; cases hsome
        | some j => rfl

theorem drop_getLast {α : Type} :
    ∀ (l : List α) (k : ℕ), k < l.length → (l.drop k).getLast? = l.getLast? := by
  intro l
  induction l with
  | nil => intro k h; simp at h
  | cons a l ih =>
    intro k hk
    cases k with
    | zero => rfl
    | succ k =>
      cases l with
      | nil => simp at hk
      | cons b l' =>
        rw [List.drop_succ_cons, ih k (by simpa using hk), List.getLast?_cons_cons]

theorem trimHistory_spec {nd : ℚ} {l : List HistSample} (hne : l ≠ []) :
    trimHistory nd l ≠ [] ∧ (trimHistory nd l).getLast? = l.getLast? := by
  unfold trimHistory
  by_cases hlen : l.length > 1
  · rw [if_pos hlen]
    cases hfk : firstKeepIdx nd l with
    | none =>
      simp only [Option.getD_none, List.drop_zero]
      exact ⟨hne, trivial⟩
    | some i =>
      have hi := firstKeepIdx_lt hfk
      simp only [Option.getD_some]
      constructor
      · intro hcon
        have hlencon := congrArg List.length hcon
        rw [List.length_drop] at hlencon
        simp only [List.length_nil] at hlencon
        omega
      · exact drop_getLast l i (by omega)
  · rw [if_neg hlen]
    exact ⟨hne, rfl⟩

theorem trimHistory_head {nd : ℚ} {h : List HistSample} {lp : HistSample}
    (new : HistSample) (hl : h.getLast? = some lp)
    (hle : nd - lp.cumulativeDistance ≤ maxTrailDistanceM) :
    ∀ e ∈ (trimHistory nd (h ++ [new])).head?,
      nd - e.cumulativeDistance ≤ maxTrailDistanceM := by
  unfold trimHistory
  have hhne : h ≠ [] := by
    intro hcon
    rw [hcon] at hl
    simp at hl
  have hlen : (h ++ [new]).length > 1 := by
    cases h with
    | nil => exact absurd rfl hhne
    | cons a h' => simp
  rw [if_pos hlen]
  have hsome := firstKeepIdx_isSome new hl hle
  cases hfk : firstKeepIdx nd (h ++ [new]) with
  | none => rw [hfk] at hsome; cases hsome
  | some i =>
    simp only [Option.getD_some]
    exact firstKeepIdx_head hfk

/-! Engine: branch shapes of updatePosition (claim C5). -/

theorem updatePosition_not_running (T : Trig) (s : SimState) (ts : ℚ)
    (h : s.isRunning = false) : updatePosition T s ts = s := by
  unfold updatePosition
  rw [h]
  rw [if_pos rfl]

theorem updatePosition_first (T : Trig) (s : SimState) (ts : ℚ)
    (hrun : s.isRunning = true) (h : s.lastTimestamp = none) :
    updatePosition T s ts = { s with lastTimestamp := some ts } := by
  unfold updatePosition
  rw [hrun, h]
  rw [if_neg (by simp)]
  rw [if_pos (Or.inl le_rfl)]

theorem updatePosition_skip (T : Trig) (s : SimState) (ts L : ℚ)
    (hrun : s.isRunning = true) (hL : s.lastTimestamp = some L)
    (hbad : (ts - L) / 1000 ≤ 0 ∨ (ts - L) / 1000 > 0.1) :
    updatePosition T s ts = { s with lastTimestamp := some ts } := by
  unfold updatePosition
  rw [hrun, hL]
  rw [if_neg (by simp)]
  rw [if_pos hbad]

theorem validTick_lastTimestamp (T : Trig) (s : SimState) (ts dt : ℚ) :
    (validTick T s ts dt).lastTimestamp = some ts := by
  unfold validTick
  dsimp only
  split <;> rfl

theorem validTick_isRunning (T : Trig) (s : SimState) (ts dt : ℚ) :
    (validTick T s ts dt).isRunning = s.isRunning := by
  unfold validTick
  dsimp only
  split <;> rfl

theorem validTick_hist_skip (T : Trig) (s : SimState) (ts dt : ℚ) {lu : ℚ}
    (h : s.lastUpdateTime = some lu) (hlt : ¬(ts - lu ≥ updateIntervalMs)) :
    (validTick T s ts dt).positionHistory = s.positionHistory ∧
    (validTick T s ts dt).cumulativeDistance = s.cumulativeDistance ∧
    (validTick T s ts dt).lastUpdateTime = s.lastUpdateTime := by
  unfold validTick
  rw [h]
  dsimp only
  rw [if_neg (by simpa using hlt)]
  exact ⟨rfl, rfl, rfl⟩

theorem validTick_hist_upd (T : Trig) (s : SimState) (ts dt : ℚ)
    (h : s.lastUpdateTime = none ∨
      ∃ lu, s.lastUpdateTime = some lu ∧ ts - lu ≥ updateIntervalMs) :
    (validTick T s ts dt).positionHistory =
      (historyStep T (tickX T s dt) (tickY T s dt) (tickZ T s dt)
        s.cumulativeDistance s.positionHistory ts).1 ∧
    (validTick T s ts dt).cumulativeDistance =
      (historyStep T (tickX T s dt) (tickY T s dt) (tickZ T s dt)
        s.cumulativeDistance s.positionHistory ts).2 ∧
    (validTick T s ts dt).lastUpdateTime = some ts := by
  unfold validTick
  rcases h with h | ⟨lu, h, hge⟩
  · rw [h]
    dsimp only
    rw [if_pos rfl]
    exact ⟨rfl, rfl, rfl⟩
  · rw [h]
    dsimp only
    rw [if_pos (by simpa using hge)]
    exact ⟨rfl, rfl, rfl⟩

theorem tickSpeed_le (s : SimState) (dt : ℚ) : (tickSpeed s dt).2 ≤ maxSpeedMps :=
  (speedStep_bounds _ _ _ _).2

theorem tickDist_bound (T : Trig) (hT : TrigSound T) (s : SimState) {dt : ℚ}
    (hdt : 0 < dt) : |tickDist T s dt| ≤ maxSpeedMps * dt := by
  obtain ⟨_, hcos, _, _⟩ := hT
  unfold tickDist
  rw [abs_mul, abs_mul, abs_of_pos hdt]
  have h1 : |(tickSpeed s dt).2| ≤ maxSpeedMps := by
    rw [abs_of_pos (tickSpeed_pos s dt)]
    exact tickSpeed_le s dt
  have h2 : |T.cos (toRadians (tickPitchAngle T s dt))| ≤ 1 := hcos _
  have h3 : |(tickSpeed s dt).2| * |T.cos (toRadians (tickPitchAngle T s dt))| ≤
      maxSpeedMps := by
    calc |(tickSpeed s dt).2| * |T.cos (toRadians (tickPitchAngle T s dt))| ≤
        maxSpeedMps * 1 :=
          mul_le_mul h1 h2 (abs_nonneg _) (by norm_num [maxSpeedMps, KT_TO_MPS])
      _ = maxSpeedMps := mul_one _
  exact mul_le_mul_of_nonneg_right h3 hdt.le

theorem tickMove_bound (T : Trig) (hT : TrigSound T) (s : SimState) {dt : ℚ}
    (hdt : 0 < dt) :
    |tickX T s dt - s.x| + |tickY T s dt - s.y| ≤ 2 * maxSpeedMps * dt := by
  have hsin := hT.1
  have hcos := hT.2.1
  have hdb := tickDist_bound T hT s hdt
  have hx : |tickX T s dt - s.x| ≤ maxSpeedMps * dt := by
    unfold tickX
    rw [add_sub_cancel_left, abs_mul]
    calc |T.sin (toRadians (tickHeadingDeg s dt))| * |tickDist T s dt| ≤
        1 * (maxSpeedMps * dt) :=
          mul_le_mul (hsin _) hdb (abs_nonneg _) zero_le_one
      _ = maxSpeedMps * dt := one_mul _
  have hy : |tickY T s dt - s.y| ≤ maxSpeedMps * dt := by
    unfold tickY
    have he : s.y - T.cos (toRadians (tickHeadingDeg s dt)) * tickDist T s dt - s.y =
        -(T.cos (toRadians (tickHeadingDeg s dt)) * tickDist T s dt) := by ring
    rw [he, abs_neg, abs_mul]
    calc |T.cos (toRadians (tickHeadingDeg s dt))| * |tickDist T s dt| ≤
        1 * (maxSpeedMps * dt) :=
          mul_le_mul (hcos _) hdb (abs_nonneg _) zero_le_one
      _ = maxSpeedMps * dt := one_mul _
  linarith

/-! Engine: the invariant is preserved by every operation (claim C5). -/

theorem two_maxSpeed_nonneg : (0:ℚ) ≤ 2 * maxSpeedMps := by
  norm_num [maxSpeedMps, KT_TO_MPS]

theorem posBound_mono {t t' : ℚ} (s : SimState) (h : t ≤ t') :
    posBound t s ≤ posBound t' s := by
  unfold posBound
  cases s.lastUpdateTime with
  | none => exact le_refl 0
  | some lu =>
    cases s.lastTimestamp with
    | none =>
      exact mul_le_mul_of_nonneg_left
        (min_le_min (by linarith) le_rfl) two_maxSpeed_nonneg
    | some L => exact le_refl _

theorem posBound_le_cap (tclock : ℚ) (s : SimState) :
    posBound tclock s ≤ 2 * maxSpeedMps * (3 / 20) := by
  unfold posBound
  cases s.lastUpdateTime with
  | none => norm_num [maxSpeedMps, KT_TO_MPS]
  | some lu =>
    cases s.lastTimestamp with
    | none => exact mul_le_mul_of_nonneg_left (min_le_right _ _) two_maxSpeed_nonneg
    | some L => exact mul_le_mul_of_nonneg_left (min_le_right _ _) two_maxSpeed_nonneg

theorem engineInv_mono {t t' : ℚ} {s : SimState} (h : EngineInv t s) (htt : t ≤ t') :
    EngineInv t' s := by
  obtain ⟨h1, h2, h3, h4, h5, h6, h7⟩ := h
  refine ⟨?_, ?_, h3, h4, ?_, h6, h7⟩
  · intro lu hlu
    exact le_trans (h1 lu hlu) htt
  · intro L hL
    exact le_trans (h2 L hL) htt
  · intro last hlast
    obtain ⟨hcd, hman⟩ := h5 last hlast
    exact ⟨hcd, le_trans hman (posBound_mono s htt)⟩

theorem posBound_none {t : ℚ} {s : SimState} (h : s.lastUpdateTime = none) :
    posBound t s = 0 := by
  unfold posBound
  rw [h]

/-- EngineInv for a state whose buffers are empty and clocks cleared
(fresh construction or reset). -/
theorem engineInv_fresh {t : ℚ} {s' : SimState}
    (hph : s'.positionHistory = []) (hlu : s'.lastUpdateTime = none)
    (hlt : s'.lastTimestamp = none) (hcd : s'.cumulativeDistance = 0)
    (hir : s'.isRunning = false) : EngineInv t s' := by
  refine ⟨?_, ?_, ?_, ?_, ?_, ?_, ?_⟩
  · intro lu hl
    rw [hlu] at hl
    exact absurd hl (Option.not_mem_none lu)
  · intro L hL
    rw [hlt] at hL
    exact absurd hL (Option.not_mem_none L)
  · intro lu hl L hL
    rw [hlt] at hL
    exact absurd hL (Option.not_mem_none L)
  · intro _
    exact ⟨hcd, hlu⟩
  · intro last hlast
    rw [hph] at hlast
    exact absurd hlast (Option.not_mem_none last)
  · intro hr
    rw [hir] at hr
    exact absurd hr (by decide)
  · unfold histSpan
    rw [hph]
    norm_num [maxTrailDistanceM]

theorem engineInv_init (h a o k t0 : ℚ) : EngineInv t0 (createSim h a o k) :=
  engineInv_fresh rfl rfl rfl rfl rfl

theorem engineInv_of_fields {t : ℚ} {s s' : SimState}
    (hx : s'.x = s.x) (hy : s'.y = s.y)
    (hph : s'.positionHistory = s.positionHistory)
    (hlu : s'.lastUpdateTime = s.lastUpdateTime)
    (hlt : s'.lastTimestamp = s.lastTimestamp)
    (hcd : s'.cumulativeDistance = s.cumulativeDistance)
    (hir : s'.isRunning = s.isRunning)
    (h : EngineInv t s) : EngineInv t s' := by
  unfold EngineInv posBound histSpan at h ⊢
  rw [hx, hy, hph, hlu, hlt, hcd, hir]
  exact h

/-- EngineInv survives clearing lastTimestamp (stop, and start on a nonempty
buffer): the position bound only grows, since the previous frame time is at
most the clock. -/
theorem engineInv_clearStamp {t : ℚ} {s s' : SimState} (h : EngineInv t s)
    (hx : s'.x = s.x) (hy : s'.y = s.y)
    (hph : s'.positionHistory = s.positionHistory)
    (hlu : s'.lastUpdateTime = s.lastUpdateTime)
    (hlt : s'.lastTimestamp = none)
    (hcd : s'.cumulativeDistance = s.cumulativeDistance)
    (hir : s'.isRunning = true → s'.positionHistory ≠ []) :
    EngineInv t s' := by
  obtain ⟨h1, h2, h3, h4, h5, h6, h7⟩ := h
  refine ⟨?_, ?_, ?_, ?_, ?_, hir, ?_⟩
  · intro lu hl
    rw [hlu] at hl
    exact h1 lu hl
  · intro L hL
    rw [hlt] at hL
    exact absurd hL (Option.not_mem_none L)
  · intro lu hl L hL
    rw [hlt] at hL
    exact absurd hL (Option.not_mem_none L)
  · intro hemp
    rw [hph] at hemp
    obtain ⟨hc, hl⟩ := h4 hemp
    exact ⟨hcd.trans hc, hlu.trans hl⟩
  · intro last hlast
    rw [hph] at hlast
    obtain ⟨hc, hman⟩ := h5 last hlast
    refine ⟨hcd.trans hc, ?_⟩
    rw [hx, hy]
    refine le_trans hman ?_
    unfold posBound
    rw [hlu, hlt]
    cases hl : s.lastUpdateTime with
    | none => exact le_rfl
    | some lu =>
      cases hLo : s.lastTimestamp with
      | none => exact le_rfl
      | some L =>
        have hLt : L ≤ t := h2 L (by rw [hLo]; rfl)
        exact mul_le_mul_of_nonneg_left
          (min_le_min (by linarith) le_rfl) two_maxSpeed_nonneg
  · unfold histSpan
    rw [hph]
    exact h7

/-- EngineInv for the start-on-empty-buffer state: one fresh sample at the
current position, cumulative distance 0, clocks cleared. -/
theorem engineInv_pushed {now : ℚ} (zq : ℚ) {sq : SimState}
    (hph : sq.positionHistory = [⟨sq.x, sq.y, zq, 0, now⟩])
    (hlu : sq.lastUpdateTime = none)
    (hlt : sq.lastTimestamp = none)
    (hcd : sq.cumulativeDistance = 0) : EngineInv now sq := by
  refine ⟨?_, ?_, ?_, ?_, ?_, ?_, ?_⟩
  · intro lu hl
    rw [hlu] at hl
    exact absurd hl (Option.not_mem_none lu)
  · intro L hL
    rw [hlt] at hL
    exact absurd hL (Option.not_mem_none L)
  · intro lu hl L hL
    rw [hlt] at hL
    exact absurd hL (Option.not_mem_none L)
  · intro hemp
    exact ⟨hcd, hlu⟩
  · intro last hlast
    rw [hph] at hlast
    rw [List.getLast?_singleton] at hlast
    rcases Option.mem_some_iff.mp hlast with rfl
    refine ⟨hcd, ?_⟩
    rw [posBound_none hlu]
    show |sq.x - sq.x| + |sq.y - sq.y| ≤ 0
    rw [sub_self, sub_self, abs_zero, add_zero]
  · intro _
    rw [hph]
    simp
  · unfold histSpan
    rw [hph]
    norm_num [maxTrailDistanceM]

theorem engineInv_setControls {t : ℚ} {s : SimState} (a b c : Option ℚ)
    (h : EngineInv t s) : EngineInv t (setControls s a b c) := by
  unfold setControls
  cases a <;> cases b <;> cases c <;>
    exact engineInv_of_fields rfl rfl rfl rfl rfl rfl rfl h

theorem engineInv_setSpeed {t : ℚ} {s : SimState} (k : ℚ) (h : EngineInv t s) :
    EngineInv t (setSpeed s k) :=
  engineInv_of_fields rfl rfl rfl rfl rfl rfl rfl h

theorem engineInv_setHeading {t : ℚ} {s : SimState} (v : ℚ) (h : EngineInv t s) :
    EngineInv t (setHeading s v) :=
  engineInv_of_fields rfl rfl rfl rfl rfl rfl rfl h

theorem engineInv_setAltitude {t : ℚ} {s : SimState} (v : ℚ) (h : EngineInv t s) :
    EngineInv t (setAltitude s v) :=
  engineInv_of_fields rfl rfl rfl rfl rfl rfl rfl h

theorem engineInv_setVsl {t : ℚ} {s : SimState} (v : Option ℚ) (h : EngineInv t s) :
    EngineInv t (setVerticalSpeedLimit s v) := by
  unfold setVerticalSpeedLimit
  cases v <;> exact engineInv_of_fields rfl rfl rfl rfl rfl rfl rfl h

theorem engineInv_clearSpeed {t : ℚ} {s : SimState} (h : EngineInv t s) :
    EngineInv t (clearSpeed s) :=
  engineInv_of_fields rfl rfl rfl rfl rfl rfl rfl h

theorem engineInv_clearHeading {t : ℚ} {s : SimState} (h : EngineInv t s) :
    EngineInv t (clearHeading s) :=
  engineInv_of_fields rfl rfl rfl rfl rfl rfl rfl h

theorem engineInv_clearAltitude {t : ℚ} {s : SimState} (h : EngineInv t s) :
    EngineInv t (clearAltitude s) :=
  engineInv_of_fields rfl rfl rfl rfl rfl rfl rfl h

theorem engineInv_clearVsl {t : ℚ} {s : SimState} (h : EngineInv t s) :
    EngineInv t (clearVerticalSpeedLimit s) :=
  engineInv_of_fields rfl rfl rfl rfl rfl rfl rfl h

theorem engineInv_origin {t : ℚ} {s : SimState} (m : ℚ) (h : EngineInv t s) :
    EngineInv t (updateOriginAltitude s m) :=
  engineInv_of_fields rfl rfl rfl rfl rfl rfl rfl h

theorem engineInv_stop {t : ℚ} {s : SimState} (h : EngineInv t s) :
    EngineInv t (engineStop s) := by
  refine engineInv_clearStamp h rfl rfl rfl rfl rfl rfl ?_
  intro hr
  exact Bool.noConfusion hr

theorem engineInv_reset {t : ℚ} {s : SimState} (h : EngineInv t s) :
    EngineInv t (engineReset s) := by
  unfold engineReset engineStop
  exact engineInv_fresh rfl rfl rfl rfl rfl

theorem engineInv_start {t now : ℚ} {s : SimState} (h : EngineInv t s)
    (hle : t ≤ now) : EngineInv now (engineStart s now) := by
  have hmono := engineInv_mono h hle
  unfold engineStart
  by_cases hrun : s.isRunning
  · rw [if_pos hrun]
    exact hmono
  · rw [if_neg hrun]
    by_cases hemp : s.positionHistory.isEmpty
    · rw [if_pos hemp]
      have hempl : s.positionHistory = [] := List.isEmpty_iff.mp hemp
      obtain ⟨hcd0, hlu0⟩ := hmono.2.2.2.1 hempl
      exact engineInv_pushed s.z rfl hlu0 rfl hcd0
    · rw [if_neg hemp]
      refine engineInv_clearStamp hmono rfl rfl rfl rfl rfl rfl ?_
      intro _
      intro hc
      exact hemp (by rw [show s.positionHistory = [] from hc]; rfl)

/-- EngineInv survives a timestamp-only frame (the not-yet-primed and the
invalid-delta branches of updatePosition): the widened frame window only
grows the position bound. -/
theorem engineInv_stamp {t ts : ℚ} {s s' : SimState} (h : EngineInv t s)
    (hts : t ≤ ts)
    (hx : s'.x = s.x) (hy : s'.y = s.y)
    (hph : s'.positionHistory = s.positionHistory)
    (hlu : s'.lastUpdateTime = s.lastUpdateTime)
    (hlt : s'.lastTimestamp = some ts)
    (hcd : s'.cumulativeDistance = s.cumulativeDistance)
    (hir : s'.isRunning = s.isRunning) : EngineInv ts s' := by
  obtain ⟨h1, h2, h3, h4, h5, h6, h7⟩ := h
  refine ⟨?_, ?_, ?_, ?_, ?_, ?_, ?_⟩
  · intro lu hl
    rw [hlu] at hl
    exact le_trans (h1 lu hl) hts
  · intro L hL
    rw [hlt] at hL
    rcases Option.mem_some_iff.mp hL with rfl
    exact le_rfl
  · intro lu hl L hL
    rw [hlu] at hl
    rw [hlt] at hL
    rcases Option.mem_some_iff.mp hL with rfl
    exact le_trans (h1 lu hl) hts
  · intro hemp
    rw [hph] at hemp
    obtain ⟨hc, hl⟩ := h4 hemp
    exact ⟨hcd.trans hc, hlu.trans hl⟩
  · intro last hlast
    rw [hph] at hlast
    obtain ⟨hc, hman⟩ := h5 last hlast
    refine ⟨hcd.trans hc, ?_⟩
    rw [hx, hy]
    refine le_trans hman ?_
    unfold posBound
    rw [hlu, hlt]
    cases hl : s.lastUpdateTime with
    | none => exact le_rfl
    | some lu =>
      cases hLo : s.lastTimestamp with
      | none =>
        exact mul_le_mul_of_nonneg_left
          (min_le_min (by linarith) le_rfl) two_maxSpeed_nonneg
      | some L =>
        have hLt : L ≤ t := h2 L (by rw [hLo]; rfl)
        exact mul_le_mul_of_nonneg_left
          (min_le_min (by linarith) le_rfl) two_maxSpeed_nonneg
  · intro hr
    rw [hir] at hr
    rw [hph]
    exact h6 hr
  · unfold histSpan
    rw [hph]
    exact h7

theorem getLast?_cons_ne_none {A : Type} (a : A) :
    ∀ (l : List A), (a :: l).getLast? ≠ none := by
  intro l
  induction l generalizing a with
  | nil => simp
  | cons b l ih =>
    rw [List.getLast?_cons_cons]
    exact ih b

/-- historyStep on an empty buffer pushes one sample and keeps the
cumulative distance. -/
theorem historyStep_nil (T : Trig) (x y z cd ts : ℚ) :
    historyStep T x y z cd [] ts = ([⟨x, y, z, cd, ts⟩], cd) := rfl

/-- historyStep on a nonempty buffer adds the segment from the previous
newest sample, appends, and trims. -/
theorem historyStep_eq (T : Trig) (x y z cd : ℚ) (ph : List HistSample)
    (ts : ℚ) {lp : HistSample} (hgl : ph.getLast? = some lp) :
    historyStep T x y z cd ph ts =
      (trimHistory (cd + T.sqrt ((x - lp.x) ^ 2 + (y - lp.y) ^ 2))
        (ph ++ [⟨x, y, z, cd + T.sqrt ((x - lp.x) ^ 2 + (y - lp.y) ^ 2), ts⟩]),
       cd + T.sqrt ((x - lp.x) ^ 2 + (y - lp.y) ^ 2)) := by
  unfold historyStep
  rw [hgl]

/-- The position bound vanishes when both clocks sit at the current frame. -/
theorem posBound_self {ts : ℚ} {sq : SimState}
    (hlu : sq.lastUpdateTime = some ts) (hlt : sq.lastTimestamp = some ts) :
    posBound ts sq = 0 := by
  unfold posBound
  rw [hlu, hlt]
  show 2 * maxSpeedMps * min ((ts - ts) / 1000) (3 / 20) = 0
  rw [sub_self, zero_div, min_eq_left (by norm_num : (0:ℚ) ≤ 3 / 20), mul_zero]

/-- EngineInv for a state whose single history sample sits at the current
position with both clocks at the sample frame. -/
theorem engineInv_single {ts cdq : ℚ} {pt : HistSample} {sq : SimState}
    (hph : sq.positionHistory = [pt])
    (hx : pt.x = sq.x) (hy : pt.y = sq.y)
    (hptcd : pt.cumulativeDistance = cdq)
    (hlu : sq.lastUpdateTime = some ts)
    (hlt : sq.lastTimestamp = some ts)
    (hcd : sq.cumulativeDistance = cdq) : EngineInv ts sq := by
  refine ⟨?_, ?_, ?_, ?_, ?_, ?_, ?_⟩
  · intro lu hl
    rw [hlu] at hl
    rcases Option.mem_some_iff.mp hl with rfl
    exact le_rfl
  · intro L hL
    rw [hlt] at hL
    rcases Option.mem_some_iff.mp hL with rfl
    exact le_rfl
  · intro lu hl L hL
    rw [hlu] at hl
    rcases Option.mem_some_iff.mp hl with rfl
    rw [hlt] at hL
    rcases Option.mem_some_iff.mp hL with rfl
    exact le_rfl
  · intro hemp
    rw [hph] at hemp
    exact absurd hemp (List.cons_ne_nil pt [])
  · intro last hlast
    rw [hph, List.getLast?_singleton] at hlast
    rcases Option.mem_some_iff.mp hlast with rfl
    refine ⟨hcd.trans hptcd.symm, ?_⟩
    rw [posBound_self hlu hlt]
    simp [hx, hy]
  · intro _
    rw [hph]
    exact List.cons_ne_nil pt []
  · unfold histSpan
    rw [hph]
    norm_num [maxTrailDistanceM]

/-- EngineInv for the post-append state of a valid tick: the buffer is the
trimmed extension of a nonempty buffer by a fresh sample at the aircraft's
position, within the trail limit of the previous newest sample. -/
theorem engineInv_append {ts cd1 : ℚ} {old : List HistSample}
    {lp pt : HistSample} {sq : SimState}
    (hgl : old.getLast? = some lp)
    (hle : cd1 - lp.cumulativeDistance ≤ maxTrailDistanceM)
    (hph : sq.positionHistory = trimHistory cd1 (old ++ [pt]))
    (hx : pt.x = sq.x) (hy : pt.y = sq.y)
    (hptcd : pt.cumulativeDistance = cd1)
    (hlu : sq.lastUpdateTime = some ts)
    (hlt : sq.lastTimestamp = some ts)
    (hcd : sq.cumulativeDistance = cd1) : EngineInv ts sq := by
  obtain ⟨htne, htlast⟩ := @trimHistory_spec cd1 (old ++ [pt]) (by simp)
  rw [List.getLast?_concat] at htlast
  have hthead := trimHistory_head pt hgl hle
  refine ⟨?_, ?_, ?_, ?_, ?_, ?_, ?_⟩
  · intro lu hl
    rw [hlu] at hl
    rcases Option.mem_some_iff.mp hl with rfl
    exact le_rfl
  · intro L hL
    rw [hlt] at hL
    rcases Option.mem_some_iff.mp hL with rfl
    exact le_rfl
  · intro lu hl L hL
    rw [hlu] at hl
    rcases Option.mem_some_iff.mp hl with rfl
    rw [hlt] at hL
    rcases Option.mem_some_iff.mp hL with rfl
    exact le_rfl
  · intro hemp
    rw [hph] at hemp
    exact absurd hemp htne
  · intro last hlast
    rw [hph, htlast] at hlast
    rcases Option.mem_some_iff.mp hlast with rfl
    refine ⟨hcd.trans hptcd.symm, ?_⟩
    rw [posBound_self hlu hlt]
    simp [hx, hy]
  · intro _
    rw [hph]
    exact htne
  · unfold histSpan
    rw [hph]
    cases htr : trimHistory cd1 (old ++ [pt]) with
    | nil => exact absurd htr htne
    | cons e rest =>
      rw [htr] at htlast
      have hbound := hthead e (by rw [htr]; rfl)
      rw [htlast]
      show pt.cumulativeDistance - e.cumulativeDistance ≤ maxTrailDistanceM
      rw [hptcd]
      exact hbound

/-- A valid tick inside the 50 ms window since the last history append keeps
the buffer and stays within the widened position bound. -/
theorem engineInv_validTick_skip {T : Trig} (hT : TrigSound T)
    {t ts L lu dt : ℚ} {s : SimState} (h : EngineInv t s) (hts : t ≤ ts)
    (hL : s.lastTimestamp = some L) (hdt : dt = (ts - L) / 1000)
    (hdt0 : 0 < dt)
    (hlu : s.lastUpdateTime = some lu)
    (hlt50 : ¬(ts - lu ≥ updateIntervalMs)) :
    EngineInv ts (validTick T s ts dt) := by
  obtain ⟨hh, hc, hlu2⟩ := validTick_hist_skip T s ts dt hlu hlt50
  obtain ⟨h1, h2, h3, h4, h5, h6, h7⟩ := h
  have hLt : L ≤ t := h2 L (by rw [hL]; rfl)
  have hluL : lu ≤ L := h3 lu (by rw [hlu]; rfl) L (by rw [hL]; rfl)
  have hLts : L < ts := by
    have hpos : 0 < (ts - L) / 1000 := hdt ▸ hdt0
    linarith
  have hw : ts - lu < updateIntervalMs := not_le.mp hlt50
  have h50 : updateIntervalMs = 50 := rfl
  have hmove := tickMove_bound T hT s hdt0
  refine ⟨?_, ?_, ?_, ?_, ?_, ?_, ?_⟩
  · intro lu2 hl2
    rw [hlu2, hlu] at hl2
    rcases Option.mem_some_iff.mp hl2 with rfl
    linarith
  · intro L2 hL2
    rw [validTick_lastTimestamp] at hL2
    rcases Option.mem_some_iff.mp hL2 with rfl
    exact le_rfl
  · intro lu2 hl2 L2 hL2
    rw [hlu2, hlu] at hl2
    rcases Option.mem_some_iff.mp hl2 with rfl
    rw [validTick_lastTimestamp] at hL2
    rcases Option.mem_some_iff.mp hL2 with rfl
    linarith
  · intro hemp
    rw [hh] at hemp
    obtain ⟨_, hlu0⟩ := h4 hemp
    rw [hlu0] at hlu
    exact Option.noConfusion hlu
  · intro last hlast
    rw [hh] at hlast
    obtain ⟨hcd, hman⟩ := h5 last hlast
    refine ⟨hc.trans hcd, ?_⟩
    rw [validTick_x, validTick_y]
    have hpb : posBound ts (validTick T s ts dt) =
        2 * maxSpeedMps * min ((ts - lu) / 1000) (3 / 20) := by
      unfold posBound
      rw [hlu2, hlu, validTick_lastTimestamp]
    have hpbo : posBound t s =
        2 * maxSpeedMps * min ((L - lu) / 1000) (3 / 20) := by
      unfold posBound
      rw [hlu, hL]
    rw [hpbo] at hman
    rw [hpb]
    have hm1 : min ((L - lu) / 1000) (3 / 20) = (L - lu) / 1000 :=
      min_eq_left (by rw [h50] at hw; linarith)
    have hm2 : min ((ts - lu) / 1000) (3 / 20) = (ts - lu) / 1000 :=
      min_eq_left (by rw [h50] at hw; linarith)
    rw [hm1] at hman
    rw [hm2]
    have t1 : |tickX T s dt - last.x| ≤ |tickX T s dt - s.x| + |s.x - last.x| :=
      abs_sub_le _ _ _
    have t2 : |tickY T s dt - last.y| ≤ |tickY T s dt - s.y| + |s.y - last.y| :=
      abs_sub_le _ _ _
    have harith : 2 * maxSpeedMps * dt + 2 * maxSpeedMps * ((L - lu) / 1000) =
        2 * maxSpeedMps * ((ts - lu) / 1000) := by
      rw [hdt]
      ring
    linarith
  · intro hr
    rw [validTick_isRunning] at hr
    rw [hh]
    exact h6 hr
  · unfold histSpan
    rw [hh]
    exact h7

/-- A valid tick past the 50 ms window (or before any append) pushes a fresh
sample at the new position and trims: the trimmed buffer is nonempty, keeps
its newest point, and spans at most the trail limit. -/
theorem engineInv_validTick_upd {T : Trig} (hT : TrigSound T) {t ts dt : ℚ}
    {s : SimState} (h : EngineInv t s) (hdt0 : 0 < dt) (hdt1 : dt ≤ 0.1)
    (hupd : s.lastUpdateTime = none ∨
      ∃ lu, s.lastUpdateTime = some lu ∧ ts - lu ≥ updateIntervalMs) :
    EngineInv ts (validTick T s ts dt) := by
  obtain ⟨hh, hc, hlu2⟩ := validTick_hist_upd T s ts dt hupd
  obtain ⟨h1, h2, h3, h4, h5, h6, h7⟩ := h
  have hmove := tickMove_bound T hT s hdt0
  cases hgl : s.positionHistory.getLast? with
  | none =>
    have hph : s.positionHistory = [] := by
      cases hp : s.positionHistory with
      | nil => rfl
      | cons a l =>
        rw [hp] at hgl
        exact absurd hgl (getLast?_cons_ne_none a l)
    obtain ⟨hcd0, _⟩ := h4 hph
    rw [hph, hcd0, historyStep_nil] at hh hc
    exact engineInv_single hh (validTick_x T s ts dt).symm
      (validTick_y T s ts dt).symm rfl hlu2
      (validTick_lastTimestamp T s ts dt) hc
  | some lp =>
    obtain ⟨hcdlp, hman⟩ := h5 lp (by rw [hgl]; rfl)
    rw [historyStep_eq T (tickX T s dt) (tickY T s dt) (tickZ T s dt)
      s.cumulativeDistance s.positionHistory ts hgl] at hh hc
    dsimp only at hh hc
    have hseg0 := hT.2.2.1 ((tickX T s dt - lp.x) ^ 2 + (tickY T s dt - lp.y) ^ 2)
    have hsegle := hT.2.2.2 (tickX T s dt - lp.x) (tickY T s dt - lp.y)
    have t1 : |tickX T s dt - lp.x| ≤ |tickX T s dt - s.x| + |s.x - lp.x| :=
      abs_sub_le _ _ _
    have t2 : |tickY T s dt - lp.y| ≤ |tickY T s dt - s.y| + |s.y - lp.y| :=
      abs_sub_le _ _ _
    have hcap := posBound_le_cap t s
    have hdtb : 2 * maxSpeedMps * dt ≤ 2 * maxSpeedMps * (1 / 10) :=
      mul_le_mul_of_nonneg_left (by linarith) two_maxSpeed_nonneg
    have hcapn : (2:ℚ) * maxSpeedMps * (1 / 10) + 2 * maxSpeedMps * (3 / 20) ≤
        maxTrailDistanceM := by
      norm_num [maxSpeedMps, KT_TO_MPS, maxTrailDistanceM]
    have hle : s.cumulativeDistance +
        T.sqrt ((tickX T s dt - lp.x) ^ 2 + (tickY T s dt - lp.y) ^ 2) -
        lp.cumulativeDistance ≤ maxTrailDistanceM := by
      rw [hcdlp]
      linarith
    exact engineInv_append hgl hle hh (validTick_x T s ts dt).symm
      (validTick_y T s ts dt).symm rfl hlu2
      (validTick_lastTimestamp T s ts dt) hc

/-- EngineInv is preserved by the accepted-tick body. -/
theorem engineInv_validTick {T : Trig} (hT : TrigSound T) {t ts L dt : ℚ}
    {s : SimState} (h : EngineInv t s) (hts : t ≤ ts)
    (hL : s.lastTimestamp = some L) (hdt : dt = (ts - L) / 1000)
    (hdt0 : 0 < dt) (hdt1 : dt ≤ 0.1) :
    EngineInv ts (validTick T s ts dt) := by
  cases hlu : s.lastUpdateTime with
  | none => exact engineInv_validTick_upd hT h hdt0 hdt1 (Or.inl hlu)
  | some lu =>
    by_cases hge : ts - lu ≥ updateIntervalMs
    · exact engineInv_validTick_upd hT h hdt0 hdt1 (Or.inr ⟨lu, hlu, hge⟩)
    · exact engineInv_validTick_skip hT h hts hL hdt hdt0 hlu hge

/-- EngineInv is preserved by updatePosition. -/
theorem engineInv_tick {T : Trig} (hT : TrigSound T) {t ts : ℚ} {s : SimState}
    (h : EngineInv t s) (hts : t ≤ ts) :
    EngineInv ts (updatePosition T s ts) := by
  by_cases hrun : s.isRunning = false
  · rw [updatePosition_not_running T s ts hrun]
    exact engineInv_mono h hts
  · have hrun2 : s.isRunning = true := by
      cases hb : s.isRunning
      · exact absurd hb hrun
      · rfl
    cases hL : s.lastTimestamp with
    | none =>
      rw [updatePosition_first T s ts hrun2 hL]
      exact engineInv_stamp h hts rfl rfl rfl rfl rfl rfl rfl
    | some L =>
      by_cases hbad : (ts - L) / 1000 ≤ 0 ∨ (ts - L) / 1000 > 0.1
      · rw [updatePosition_skip T s ts L hrun2 hL hbad]
        exact engineInv_stamp h hts rfl rfl rfl rfl rfl rfl rfl
      · push_neg at hbad
        have hval : updatePosition T s ts = validTick T s ts ((ts - L) / 1000) := by
          unfold updatePosition
          rw [hrun2, hL]
          rw [if_neg (by simp)]
          rw [if_neg (by push_neg; exact hbad)]
        rw [hval]
        exact engineInv_validTick hT h hts hL rfl hbad.1 hbad.2

/-- Every state reachable through the public engine API satisfies the
invariant at its wall clock. -/
theorem reach_engineInv {T : Trig} (hT : TrigSound T) {t : ℚ} {s : SimState}
    (hs : Reach T t s) : EngineInv t s := by
  induction hs with
  | init h a o k t0 => exact engineInv_init h a o k t0
  | tick ts hr hle ih => exact engineInv_tick hT ih hle
  | start now hr hle ih => exact engineInv_start ih hle
  | stop hr ih => exact engineInv_stop ih
  | reset hr ih => exact engineInv_reset ih
  | controls a b c hr ih => exact engineInv_setControls a b c ih
  | speed k hr ih => exact engineInv_setSpeed k ih
  | heading hh hr ih => exact engineInv_setHeading hh ih
  | altitude a hr ih => exact engineInv_setAltitude a ih
  | vsl v hr ih => exact engineInv_setVsl v ih
  | clrSpeed hr ih => exact engineInv_clearSpeed ih
  | clrHeading hr ih => exact engineInv_clearHeading ih
  | clrAltitude hr ih => exact engineInv_clearAltitude ih
  | clrVsl hr ih => exact engineInv_clearVsl ih
  | origin m hr ih => exact engineInv_origin m ih
  | wait tnext hr hle ih => exact engineInv_mono ih hle

/-- The all-zero trig table satisfies the soundness facts the invariant
needs. -/
theorem trigSound_trigZero : TrigSound trigZero := by
  refine ⟨fun q => ?_, fun q => ?_, fun q => ?_, fun a b => ?_⟩
  · show |(0:ℚ)| ≤ 1
    norm_num
  · show |(0:ℚ)| ≤ 1
    norm_num
  · exact le_rfl
  · show (0:ℚ) ≤ |a| + |b|
    positivity

/-- C5: in every engine state reachable through the public API (under the
soundness facts for the trig/sqrt library), the total arc length spanned by
the retained position-history samples — the newest sample's cumulative
distance minus the oldest's — never exceeds the maximum trailing distance
of 5000 m, and at least one sample remains retained while the engine has
been started (is running). -/
theorem claim_C5 {T : Trig} {t : ℚ} {s : SimState} (hT : TrigSound T)
    (hs : Reach T t s) :
    histSpan s ≤ maxTrailDistanceM ∧
    (s.isRunning = true → s.positionHistory ≠ []) :=
  ⟨(reach_engineInv hT hs).2.2.2.2.2.2,
   (reach_engineInv hT hs).2.2.2.2.2.1⟩

theorem claim_C5_witness :
    (TrigSound trigZero ∧ Reach trigZero 5 (engineStart (createSim 0 0 0 100) 5)) ∧
    histSpan (engineStart (createSim 0 0 0 100) 5) ≤ maxTrailDistanceM ∧
    ((engineStart (createSim 0 0 0 100) 5).isRunning = true →
      (engineStart (createSim 0 0 0 100) 5).positionHistory ≠ []) :=
  ⟨⟨trigSound_trigZero,
    Reach.start 5 (Reach.init 0 0 0 100 0) (by norm_num)⟩,
   claim_C5 trigSound_trigZero
     (Reach.start 5 (Reach.init 0 0 0 100 0) (by norm_num))⟩

/-! IntentApplier (claim C7): the final value of each target after
applyIntentToSim. -/

theorem applyIntent_targetHeadingDeg (s : SimState) (intent : Intent)
    (curAlt : Option ℚ) :
    (applyIntentToSim s intent curAlt).targetHeadingDeg =
      (match intent.targetTrackDeg with
        | some tr => some (normalizeHeading tr)
        | none =>
          match intent.targetHeadingDeg with
          | some h => some (normalizeHeading h)
          | none =>
            if intent.specialAction = some SpecialAction.resumeOwnNavigation then none
            else s.targetHeadingDeg) := by
  unfold applyIntentToSim
  cases intent.targetHeadingDeg <;> cases intent.targetTrackDeg <;>
    cases intent.targetAltitudeFt <;> cases intent.targetSpeedKt <;>
      simp only [setHeading, setAltitude, setSpeed, clearHeading, clearAltitude,
        clearSpeed] <;>
      split_ifs <;>
      first
        | rfl
        | (cases curAlt <;> simp [setAltitude])

theorem applyIntent_targetAltitudeFt (s : SimState) (intent : Intent)
    (curAlt : Option ℚ) :
    (applyIntentToSim s intent curAlt).targetAltitudeFt =
      (match intent.targetAltitudeFt with
        | some a => some (jsMax (-1000) (jsMin 60000 a))
        | none =>
          if intent.verticalMode = some VerticalMode.level then
            match curAlt with
            | some alt => some (jsMax (-1000) (jsMin 60000 alt))
            | none => s.targetAltitudeFt
          else if intent.specialAction = some SpecialAction.resumeOwnNavigation then none
          else s.targetAltitudeFt) := by
  unfold applyIntentToSim
  cases intent.targetHeadingDeg <;> cases intent.targetTrackDeg <;>
    cases intent.targetAltitudeFt <;> cases intent.targetSpeedKt <;>
      simp only [setHeading, setAltitude, setSpeed, clearHeading, clearAltitude,
        clearSpeed] <;>
      split_ifs <;>
      first
        | rfl
        | (cases curAlt <;> simp [setAltitude])

theorem applyIntent_targetSpeedKt (s : SimState) (intent : Intent)
    (curAlt : Option ℚ) :
    (applyIntentToSim s intent curAlt).targetSpeedKt =
      (match intent.targetSpeedKt with
        | some k => some (jsMax 40 (jsMin 400 k))
        | none =>
          if intent.specialAction = some SpecialAction.resumeOwnNavigation then none
          else s.targetSpeedKt) := by
  unfold applyIntentToSim
  cases intent.targetHeadingDeg <;> cases intent.targetTrackDeg <;>
    cases intent.targetAltitudeFt <;> cases intent.targetSpeedKt <;>
      simp only [setHeading, setAltitude, setSpeed, clearHeading, clearAltitude,
        clearSpeed] <;>
      split_ifs <;>
      first
        | rfl
        | (cases curAlt <;> simp [setAltitude])

theorem applyIntent_verticalSpeedLimitFpm (s : SimState) (intent : Intent)
    (curAlt : Option ℚ) :
    (applyIntentToSim s intent curAlt).verticalSpeedLimitFpm =
      s.verticalSpeedLimitFpm := by
  unfold applyIntentToSim
  cases intent.targetHeadingDeg <;> cases intent.targetTrackDeg <;>
    cases intent.targetAltitudeFt <;> cases intent.targetSpeedKt <;>
      simp only [setHeading, setAltitude, setSpeed, clearHeading, clearAltitude,
        clearSpeed] <;>
      split_ifs <;>
      first
        | rfl
        | (cases curAlt <;> simp [setAltitude])

/-- Claim C7 counterexample: an intent carrying both a numeric
targetHeadingDeg and specialAction resumeOwnNavigation leaves a heading
target SET (the else-if chain gives the numeric field precedence), so
resumeOwnNavigation does not clear the heading target regardless of what
else is present. -/
theorem claim_C7_counterexample :
    cexIntent.specialAction = some SpecialAction.resumeOwnNavigation ∧
    (applyIntentToSim witState cexIntent none).targetHeadingDeg ≠ none := by
  constructor
  · rfl
  · rw [applyIntent_targetHeadingDeg]
    simp [cexIntent]

/-- Claim C7 (amended): a target whose corresponding intent fields are absent
is left unchanged unless specialAction is resumeOwnNavigation, which clears
heading/altitude/speed targets ONLY when the corresponding numeric field is
absent (and, for altitude, verticalMode is not 'level'); a present numeric
field takes precedence over resumeOwnNavigation and sets the target; the
vertical-speed-limit target is never touched. -/
theorem claim_C7_amended (s : SimState) (intent : Intent) (curAlt : Option ℚ) :
    ((intent.targetHeadingDeg = none → intent.targetTrackDeg = none →
        intent.specialAction ≠ some SpecialAction.resumeOwnNavigation →
        (applyIntentToSim s intent curAlt).targetHeadingDeg = s.targetHeadingDeg) ∧
     (intent.targetHeadingDeg = none → intent.targetTrackDeg = none →
        intent.specialAction = some SpecialAction.resumeOwnNavigation →
        (applyIntentToSim s intent curAlt).targetHeadingDeg = none) ∧
     (∀ h, intent.targetHeadingDeg = some h → intent.targetTrackDeg = none →
        (applyIntentToSim s intent curAlt).targetHeadingDeg =
          some (normalizeHeading h))) ∧
    ((intent.targetAltitudeFt = none → intent.verticalMode ≠ some VerticalMode.level →
        intent.specialAction ≠ some SpecialAction.resumeOwnNavigation →
        (applyIntentToSim s intent curAlt).targetAltitudeFt = s.targetAltitudeFt) ∧
     (intent.targetAltitudeFt = none → intent.verticalMode ≠ some VerticalMode.level →
        intent.specialAction = some SpecialAction.resumeOwnNavigation →
        (applyIntentToSim s intent curAlt).targetAltitudeFt = none) ∧
     (∀ a, intent.targetAltitudeFt = some a →
        (applyIntentToSim s intent curAlt).targetAltitudeFt =
          some (jsMax (-1000) (jsMin 60000 a)))) ∧
    ((intent.targetSpeedKt = none →
        intent.specialAction ≠ some SpecialAction.resumeOwnNavigation →
        (applyIntentToSim s intent curAlt).targetSpeedKt = s.targetSpeedKt) ∧
     (intent.targetSpeedKt = none →
        intent.specialAction = some SpecialAction.resumeOwnNavigation →
        (applyIntentToSim s intent curAlt).targetSpeedKt = none) ∧
     (∀ k, intent.targetSpeedKt = some k →
        (applyIntentToSim s intent curAlt).targetSpeedKt =
          some (jsMax 40 (jsMin 400 k)))) ∧
    (applyIntentToSim s intent curAlt).verticalSpeedLimitFpm =
      s.verticalSpeedLimitFpm := by
  refine ⟨⟨?_, ?_, ?_⟩, ⟨?_, ?_, ?_⟩, ⟨?_, ?_, ?_⟩, ?_⟩
  · intro h1 h2 h3
    rw [applyIntent_targetHeadingDeg, h1, h2]
    simp [h3]
  · intro h1 h2 h3
    rw [applyIntent_targetHeadingDeg, h1, h2]
    simp [h3]
  · intro h h1 h2
    rw [applyIntent_targetHeadingDeg, h1, h2]
  · intro h1 h2 h3
    rw [applyIntent_targetAltitudeFt, h1]
    simp [h2, h3]
  · intro h1 h2 h3
    rw [applyIntent_targetAltitudeFt, h1]
    simp [h2, h3]
  · intro a h1
    rw [applyIntent_targetAltitudeFt, h1]
  · intro h1 h2
    rw [applyIntent_targetSpeedKt, h1]
    simp [h2]
  · intro h1 h2
    rw [applyIntent_targetSpeedKt, h1]
    simp [h2]
  · intro k h1
    rw [applyIntent_targetSpeedKt, h1]
  · exact applyIntent_verticalSpeedLimitFpm s intent curAlt

/-- Claim C7 witness: a bare resumeOwnNavigation intent clears the heading,
altitude and speed targets of a state that has all three set, and leaves the
vertical-speed limit untouched. -/
theorem claim_C7_witness :
    (applyIntentToSim witTargets resumeIntent none).targetHeadingDeg = none ∧
    (applyIntentToSim witTargets resumeIntent none).targetAltitudeFt = none ∧
    (applyIntentToSim witTargets resumeIntent none).targetSpeedKt = none ∧
    (applyIntentToSim witTargets resumeIntent none).verticalSpeedLimitFpm =
      some 1000 := by
  obtain ⟨⟨_, hh, _⟩, ⟨_, ha, _⟩, ⟨_, hs, _⟩, hv⟩ :=
    claim_C7_amended witTargets resumeIntent none
  exact ⟨hh rfl rfl rfl, ha rfl (by decide) rfl, hs rfl rfl, hv⟩

end DigitalAtc
